import Mathlib

/-!
Verification development for the vla-tracker retrieval-and-aggregation
pipeline.  The Python sources (crawler.py, summarizer.py, arxiv_helper.py,
run_daily.py, storage.py) are shallowly embedded below: records are
structures of optional fields (a missing dict key is `none`), network
providers and external capabilities (search pages, arXiv metadata,
translation) are oracle parameters, and each driver is a pure state
transformer.
-/

namespace VlaTracker

/-- One normalized discovered item, mirroring the result dicts built by the
adapters in crawler.py.  A field holds `none` when the corresponding dict
key is absent. -/
structure Rec where
  site : String := "unknown"
  title : Option String := none
  url : Option String := none
  snippet : Option String := none
  rank : Option Nat := none
  published : Option String := none
  authors : Option (List String) := none
  organization : Option String := none
  fetched_at : Option String := none
  arxiv_id : Option String := none
  abstract : Option String := none
  abstract_zh : Option String := none
deriving DecidableEq, Repr

/-- Python truthiness of an optional string: present and non-empty. -/
def strTruthy : Option String → Bool
  | none => false
  | some s => !(s == "")

/-- Substring search helper over character lists: does `pat` occur as a
contiguous run inside the list (Python `pat in s`)? -/
def hasSubAux (pat : List Char) : List Char → Bool
  | [] => pat.isEmpty
  | c :: rest => pat.isPrefixOf (c :: rest) || hasSubAux pat rest

/-- Python `pat in s` on strings. -/
def hasSubstr (s pat : String) : Bool := hasSubAux pat.toList s.toList

/-- Take exactly `n` decimal digits from the front of the list, returning
them with the remainder (the regex fragment `\d{n}`). -/
def takeDigits : Nat → List Char → Option (List Char × List Char)
  | 0, s => some ([], s)
  | _ + 1, [] => none
  | n + 1, c :: rest =>
    if c.isDigit then (takeDigits n rest).map (fun p => (c :: p.1, p.2)) else none

/-- Match the identifier shape `\d{4}\.\d{4,5}` at the head of the list,
greedily preferring five digits after the dot, exactly as Python's regex
engine does for the patterns in arxiv_helper.extract_arxiv_id. -/
def matchIdAt (s : List Char) : Option String :=
  match takeDigits 4 s with
  | none => none
  | some (d4, r1) =>
    match r1 with
    | '.' :: r2 =>
      match takeDigits 5 r2 with
      | some (d5, _) => some (String.mk (d4 ++ '.' :: d5))
      | none =>
        match takeDigits 4 r2 with
        | some (d4b, _) => some (String.mk (d4 ++ '.' :: d4b))
        | none => none
    | _ => none

/-- Scan left to right for the first position where `key` occurs followed
immediately by a well-formed identifier, the behaviour of `re.search`
on `key(\d{4}\.\d{4,5})`. -/
def findKeyId (key : List Char) : List Char → Option String
  | [] => none
  | c :: rest =>
    match (if key.isPrefixOf (c :: rest) then matchIdAt ((c :: rest).drop key.length) else none) with
    | some id => some id
    | none => findKeyId key rest

/-- arxiv_helper.extract_arxiv_id: try the abs, html and pdf URL shapes in
that order and return the captured numeric identifier. -/
def extract_arxiv_id (url : String) : Option String :=
  match findKeyId "arxiv.org/abs/".toList url.toList with
  | some id => some id
  | none =>
    match findKeyId "arxiv.org/html/".toList url.toList with
    | some id => some id
    | none => findKeyId "arxiv.org/pdf/".toList url.toList

/-- Result of the arXiv metadata capability
(arxiv_helper.get_arxiv_metadata): optional title, abstract, author list;
`(none, none, none)` when resolution fails. -/
abbrev MetaOracle := String → Option String × Option String × Option (List String)

/-- Result of the translation capability
(arxiv_helper.translate_to_chinese): the translated text or `none`. -/
abbrev TransOracle := String → Option String

/-- The value stored under `abstract` by enrich_arxiv_items: the resolved
abstract when one was obtained (Python-truthy), otherwise the empty
string. -/
def abstractVal : Option String → String
  | none => ""
  | some a => a

/-- The value stored under `abstract_zh` by enrich_arxiv_items: when an
abstract was obtained, the translation if it is non-blank, else the
untranslated abstract; when none was obtained, the empty string. -/
def zhVal (transO : TransOracle) : Option String → String
  | none => ""
  | some a =>
    if a = "" then ""
    else
      match transO a with
      | some z => if z.trim = "" then a else z
      | none => a

/-- The canonical title overwrites the provider-supplied one only when a
Python-truthy title was resolved (`if title: item["title"] = title`). -/
def titleVal (t old : Option String) : Option String :=
  if strTruthy t then t else old

/-- The resolved author list overwrites the old value only when it is
Python-truthy, i.e. present and non-empty (`if authors: ...`). -/
def authorsVal (au : Option (List String)) (old : Option (List String)) :
    Option (List String) :=
  match au with
  | some l => if l.isEmpty then old else some l
  | none => old

/-- Processing of a single item inside arxiv_helper.enrich_arxiv_items:
`none` means the record is dropped, `some r` that `r` is appended to the
output list.  The sequence of in-place dict mutations of the Python loop
body is expressed as one record update. -/
def enrichOne (metaO : MetaOracle) (transO : TransOracle) (it : Rec) : Option Rec :=
  let url := it.url.getD ""
  if url = "" || !(hasSubstr url "arxiv.org") then some it
  else
    match extract_arxiv_id url with
    | none => none
    | some id =>
      let m := metaO id
      some { it with
        arxiv_id := some id,
        title := titleVal m.1 it.title,
        authors := authorsVal m.2.2 it.authors,
        abstract := some (abstractVal m.2.1),
        abstract_zh := some (zhVal transO m.2.1) }

/-- arxiv_helper.enrich_arxiv_items: each item is handled independently
(the loop index only drives sleeps), so the whole pass is a filterMap. -/
def enrich_arxiv_items (metaO : MetaOracle) (transO : TransOracle)
    (items : List Rec) : List Rec :=
  items.filterMap (enrichOne metaO transO)

/-- One raw item of a Google Custom Search response page (the fields of
`data["items"][i]` read by crawler.google_site_search). -/
structure GItem where
  title : Option String := none
  link : Option String := none
  snippet : Option String := none
deriving DecidableEq, Repr

/-- The two exception classes of crawler.py: RateLimitError and its parent
SearchError. -/
inductive SErr where
  | rateLimited
  | searchFailed
deriving DecidableEq, Repr

/-- Outcome of one HTTP page request in google_site_search: a 200 response
with its item list, a 429, or any other non-200 status. -/
inductive GPage where
  | ok (items : List GItem)
  | http429
  | httpErr
deriving DecidableEq, Repr

/-- The paging provider behind google_site_search, as a function of the
requested 1-based start index and page size. -/
abbrev GoogleFetch := Nat → Nat → GPage

/-- A well-behaved provider holding the fixed result list `master`: a page
request returns the corresponding slice. -/
def pagedFetch (master : List GItem) : GoogleFetch :=
  fun start num => .ok ((master.drop (start - 1)).take num)

/-- The result dict built for each Google item (crawler.py lines 110-119):
`url` is `item.get("link")` verbatim and `rank` is one plus the number of
results accumulated so far. -/
def gItemToRec (site : String) (baseLen : Nat) (it : GItem) : Rec :=
  { site := site, title := it.title, url := it.link, snippet := it.snippet,
    rank := some (baseLen + 1) }

/-- The inner `for item in items` loop of google_site_search: append each
item, stopping once the accumulated count reaches the cap. -/
def appendGoogleItems (site : String) (maxR : Nat) : List GItem → List Rec → List Rec
  | [], acc => acc
  | it :: rest, acc =>
    let acc2 := acc ++ [gItemToRec site acc.length it]
    if maxR ≤ acc2.length then acc2 else appendGoogleItems site maxR rest acc2

/-- The `for page in range(pages_needed)` loop of google_site_search.  The
second argument is the number of pages still allowed by the range. -/
def googleLoop (fetch : GoogleFetch) (site : String) (maxR : Nat) :
    Nat → Nat → List Rec → Except SErr (List Rec)
  | _, 0, acc => .ok acc
  | page, n + 1, acc =>
    let start := page * 10 + 1
    let num := min 10 (maxR - acc.length)
    match fetch start num with
    | .http429 => .error .rateLimited
    | .httpErr => .error .searchFailed
    | .ok items =>
      if items.isEmpty then .ok acc
      else
        let acc2 := appendGoogleItems site maxR items acc
        if items.length < num then .ok acc2
        else googleLoop fetch site maxR (page + 1) n acc2

/-- crawler.google_site_search: clamp the request to 30, page in pages of
10, classify a 429 as RateLimited and any other failure as a SearchError. -/
def google_site_search (hasKeys : Bool) (site : String) (maxResults : Nat)
    (fetch : GoogleFetch) : Except SErr (List Rec) :=
  if !hasKeys then .error .searchFailed
  else
    let maxR := min maxResults 30
    googleLoop fetch site maxR 0 ((maxR + 9) / 10) []

/-- Outcome of one adapter invocation as observed by search_all_sites: a
record list, or one of the two error classes. -/
inductive AdapterOut where
  | ok (recs : List Rec)
  | rateLimited
  | failed
deriving DecidableEq, Repr

/-- One provider call issued during a run of search_all_sites, recorded in
order of occurrence. `googleSite` and `googleOrg` are the two call sites of
the shared Google provider. -/
inductive TraceEv where
  | arxivApi (out : AdapterOut)
  | githubApi (out : AdapterOut)
  | hfApi (out : AdapterOut)
  | googleSite (site : String) (out : AdapterOut)
  | googleOrg (org : String) (out : AdapterOut)
deriving DecidableEq, Repr

/-- The external world of one search_all_sites run: the outcome each
adapter call would produce, plus configuration. -/
structure CrawlEnv where
  arxivA : AdapterOut
  githubA : AdapterOut
  hfA : AdapterOut
  googleA : String → AdapterOut
  googleOrgA : String → AdapterOut
  hasGoogle : Bool
  maxResultsPerSite : Nat
  now : String

/-- The content filter applied to HuggingFace results inside
search_all_sites (lines 604-615): keep items whose lowercased title plus
snippet mention vla and either drive or robot. -/
def hfKeep (r : Rec) : Bool :=
  let text := (r.title.getD "" ++ " " ++ r.snippet.getD "").toLower
  hasSubstr text "vla" && (hasSubstr text "drive" || hasSubstr text "robot")

/-- The orchestrator's per-record timestamping (crawler.py line 669),
applied only on the Google path. -/
def stampFetched (now : String) (r : Rec) : Rec := { r with fetched_at := some now }

/-- The Google branch of the per-site loop (crawler.py lines 636-660):
call the provider only when configured and not yet rate limited; a
RateLimitError sets the run-scoped flag, a SearchError merely skips the
site. -/
def googleStep (E : CrawlEnv) (rl : Bool) (site : String) :
    List Rec × List TraceEv × Bool :=
  if E.hasGoogle && !rl then
    match E.googleA site with
    | .ok recs => (recs.map (stampFetched E.now), [.googleSite site (.ok recs)], rl)
    | .rateLimited => ([], [.googleSite site .rateLimited], true)
    | .failed => ([], [.googleSite site .failed], rl)
  else ([], [], rl)

/-- One iteration of the `for idx, site in enumerate(target_sites)` loop of
search_all_sites: arXiv tries its own API and falls back to Google on
failure or empty result; GitHub and HuggingFace never fall back; every
other site goes straight to Google. -/
def processSite (E : CrawlEnv) (rl : Bool) (site : String) :
    List Rec × List TraceEv × Bool :=
  if site = "arxiv.org" then
    match E.arxivA with
    | .ok recs =>
      if recs.isEmpty then
        let g := googleStep E rl site
        (g.1, .arxivApi (.ok recs) :: g.2.1, g.2.2)
      else (recs, [.arxivApi (.ok recs)], rl)
    | .rateLimited =>
      let g := googleStep E rl site
      (g.1, .arxivApi .rateLimited :: g.2.1, g.2.2)
    | .failed =>
      let g := googleStep E rl site
      (g.1, .arxivApi .failed :: g.2.1, g.2.2)
  else if site = "github.com" then
    match E.githubA with
    | .ok recs => (recs, [.githubApi (.ok recs)], rl)
    | .rateLimited => ([], [.githubApi .rateLimited], rl)
    | .failed => ([], [.githubApi .failed], rl)
  else if site = "huggingface.co" then
    match E.hfA with
    | .ok recs =>
      ((recs.filter hfKeep).take E.maxResultsPerSite, [.hfApi (.ok recs)], rl)
    | .rateLimited => ([], [.hfApi .rateLimited], rl)
    | .failed => ([], [.hfApi .failed], rl)
  else googleStep E rl site

/-- The whole per-site loop, threading the run-scoped Google rate-limit
flag and concatenating records and call events in order. -/
def sitesLoop (E : CrawlEnv) : List String → Bool → List Rec × List TraceEv × Bool
  | [], rl => ([], [], rl)
  | site :: rest, rl =>
    let p := processSite E rl site
    let q := sitesLoop E rest p.2.2
    (p.1 ++ q.1, p.2.1 ++ q.2.1, q.2.2)

/-- The `for org in organizations` loop of crawler.search_organizations,
with its own run-local rate-limit flag: once Google rate-limits, every
remaining organization is skipped without a call. -/
def orgsLoop (E : CrawlEnv) : List String → Bool → List Rec × List TraceEv × Bool
  | [], rl => ([], [], rl)
  | org :: rest, rl =>
    if rl then orgsLoop E rest rl
    else
      match E.googleOrgA org with
      | .ok recs =>
        let tagged := recs.map (fun r => { r with organization := some org, site := "organizations" })
        let q := orgsLoop E rest rl
        (tagged ++ q.1, .googleOrg org (.ok recs) :: q.2.1, q.2.2)
      | .rateLimited =>
        let q := orgsLoop E rest true
        (q.1, .googleOrg org .rateLimited :: q.2.1, q.2.2)
      | .failed =>
        let q := orgsLoop E rest rl
        (q.1, .googleOrg org .failed :: q.2.1, q.2.2)

/-- crawler.search_organizations. -/
def search_organizations (E : CrawlEnv) (orgs : List String) : List Rec × List TraceEv :=
  let p := orgsLoop E orgs false
  (p.1, p.2.1)

/-- crawler.search_all_sites: the per-site pass followed — only when Google
is configured and not flagged — by the organization pass.  All adapter
failures are caught inside, so the function always returns its accumulated
records together with the trace of provider calls. -/
def search_all_sites (E : CrawlEnv) (sites : List String) (orgs : List String) :
    List Rec × List TraceEv :=
  let p := sitesLoop E sites false
  if E.hasGoogle && !p.2.2 then
    let q := search_organizations E orgs
    (p.1 ++ q.1, p.2.1 ++ q.2)
  else (p.1, p.2.1)

/-- Convert the Except result of the modelled google_site_search into the
outcome type observed by the orchestrator. -/
def adapterOfExcept : Except SErr (List Rec) → AdapterOut
  | .ok l => .ok l
  | .error .rateLimited => .rateLimited
  | .error .searchFailed => .failed

/-- Insert an element into an ascending list, after any elements whose key
does not exceed it — the insertion step of a stable ascending sort. -/
def insertSorted {α : Type} (le : α → α → Bool) (x : α) : List α → List α
  | [] => [x]
  | y :: ys => if le y x then y :: insertSorted le x ys else x :: y :: ys

/-- A stable ascending sort (insertion sort), modelling Python's stable
`list.sort` / `sorted`. -/
def stableSort {α : Type} (le : α → α → Bool) (l : List α) : List α :=
  l.foldl (fun acc x => insertSorted le x acc) []

/-- The sort key used throughout summarizer.py: `x.get("rank", 999)`. -/
def rankKey (r : Rec) : Nat := r.rank.getD 999

/-- Boolean comparison corresponding to Python's ascending sort by
`rank`. -/
def rankLE (a b : Rec) : Bool := decide (rankKey a ≤ rankKey b)

/-- summarizer.py sorts a group only when it is non-empty and its first
element carries a `rank` key (`if site_items and "rank" in site_items[0]`);
Python's `list.sort` is a stable ascending sort, modelled by
`stableSort`. -/
def sortIfRanked : List Rec → List Rec
  | [] => []
  | r :: rest => if r.rank.isSome then stableSort rankLE (r :: rest) else r :: rest

/-- Append a record to the group of `key`, creating the group at the end on
first occurrence — the insertion-order behaviour of a Python
`defaultdict(list)`. -/
def insertGroup (key : String) (r : Rec) : List (String × List Rec) → List (String × List Rec)
  | [] => [(key, [r])]
  | (k, l) :: rest => if k = key then (k, l ++ [r]) :: rest else (k, l) :: insertGroup key r rest

/-- One step of the partition loop at the top of
simple_group_and_summarize: organization records are grouped by their
`organization` value, all others by `site`. -/
def groupStep (acc : List (String × List Rec) × List (String × List Rec)) (it : Rec) :
    List (String × List Rec) × List (String × List Rec) :=
  if it.site = "organizations" then
    (acc.1, insertGroup (it.organization.getD "Unknown") it acc.2)
  else (insertGroup it.site it acc.1, acc.2)

/-- The two grouping dicts (`grouped`, `org_grouped`) built by
simple_group_and_summarize. -/
def partitionGroups (items : List Rec) :
    List (String × List Rec) × List (String × List Rec) :=
  items.foldl groupStep ([], [])

/-- Python `grouped.get(site, [])`. -/
def getGroup (g : List (String × List Rec)) (k : String) : List Rec :=
  (g.lookup k).getD []

/-- The hardcoded always-shown sites of summarizer.py. -/
def targetSites : List String := ["zhihu.com", "github.com", "huggingface.co", "arxiv.org"]

/-- One per-source grouping inside a Weekly Summary. -/
structure SiteBlock where
  site : String
  site_summary : String
  items : List Rec
  organization_stats : Option (List (String × Nat)) := none
deriving DecidableEq, Repr

/-- The per-site summary sentence of summarizer.py (lines 53-56). -/
def siteSummaryText (site : String) (n : Nat) : String :=
  if n ≠ 0 then
    site ++ " 上共发现 " ++ toString n ++ " 条与 VLA 相关的更新内容（按搜索相关性排序，显示 Top " ++ toString n ++ "）。"
  else site ++ " 本周无更新。"

/-- Block construction for one always-shown site: conditional sort, cap at
30, and — for arxiv.org only, when non-empty — the enrichment pass. -/
def mkTargetBlock (metaO : MetaOracle) (transO : TransOracle)
    (grouped : List (String × List Rec)) (site : String) : SiteBlock :=
  let items0 := getGroup grouped site
  let items1 := sortIfRanked items0
  let items2 := items1.take 30
  let items3 :=
    if site = "arxiv.org" && !items2.isEmpty then enrich_arxiv_items metaO transO items2
    else items2
  { site := site, site_summary := siteSummaryText site items3.length, items := items3 }

/-- Python dict assignment `org_stats[org] = n` on an insertion-ordered
association list. -/
def updateStat (org : String) (n : Nat) : List (String × Nat) → List (String × Nat)
  | [] => [(org, n)]
  | (k, v) :: rest => if k = org then (k, n) :: rest else (k, v) :: updateStat org n rest

/-- One iteration of the `for org in all_orgs` loop (summarizer.py lines
78-94): conditional sort, per-organization cap of 30, stat bookkeeping,
tagging each kept item with its organization. -/
def orgAccum (orgGrouped : List (String × List Rec))
    (acc : List Rec × List (String × Nat)) (org : String) :
    List Rec × List (String × Nat) :=
  let org_items := (sortIfRanked (getGroup orgGrouped org)).take 30
  let stats := updateStat org org_items.length acc.2
  (acc.1 ++ org_items.map (fun it => { it with organization := some org }), stats)

/-- The aggregated 头部玩家 block: merge all organizations, conditionally
re-sort by rank, cap at 100, and retain per-organization counts. -/
def mkOrgBlock (allOrgs : List String) (orgGrouped : List (String × List Rec)) : SiteBlock :=
  let folded := allOrgs.foldl (orgAccum orgGrouped) ([], [])
  let all_org_items := (sortIfRanked folded.1).take 100
  let org_stats := folded.2
  let orgs_with_data := org_stats.countP (fun p => p.2 ≠ 0)
  let total_items := (org_stats.map (fun p => p.2)).sum
  let txt :=
    if total_items ≠ 0 then
      "头部玩家本周共发现 " ++ toString total_items ++ " 条与 VLA 相关的研究进展（来自 " ++ toString orgs_with_data ++ " 个机构，按搜索相关性排序，显示 Top " ++ toString all_org_items.length ++ "）。"
    else "头部玩家本周无更新。"
  { site := "organizations", site_summary := txt, items := all_org_items,
    organization_stats := some org_stats }

/-- Blocks for any leftover sites outside the always-shown list
(summarizer.py lines 123-139). -/
def mkOtherBlocks (grouped : List (String × List Rec)) : List SiteBlock :=
  (grouped.filter (fun p => decide (p.1 ∉ targetSites) && decide (p.1 ≠ "organizations"))).map
    (fun p =>
      let items := (sortIfRanked p.2).take 30
      { site := p.1,
        site_summary := p.1 ++ " 上共发现 " ++ toString items.length ++ " 条与 VLA 相关的更新内容（按搜索相关性排序，显示 Top " ++ toString items.length ++ "）。",
        items := items })

/-- The fixed presentation priority of summarizer.py's sort_key. -/
def orderMapVal (site : String) : Nat :=
  if site = "arxiv.org" then 1
  else if site = "organizations" then 2
  else if site = "github.com" then 3
  else if site = "huggingface.co" then 4
  else if site = "zhihu.com" then 5
  else 99

/-- Lexicographic comparison on `(order_map[site], site)`, Python's tuple
order used by `sorted(site_summaries, key=sort_key)`. -/
def blockLE (a b : SiteBlock) : Bool :=
  decide (orderMapVal a.site < orderMapVal b.site) ||
    (decide (orderMapVal a.site = orderMapVal b.site) && decide (a.site ≤ b.site))

/-- The persisted weekly document.  Driver-set date fields are day numbers
(`Int`), standing in for the ISO date strings of the Python code. -/
structure WeeklySummary where
  generated_at : String
  sites : List SiteBlock
  date : Option Int := none
  week_start : Option Int := none
  week_end : Option Int := none
  last_updated : Option Int := none
deriving DecidableEq, Repr

/-- summarizer.simple_group_and_summarize as a pure function of the input
records, the enrichment oracles, the configured organization list and the
generation timestamp. -/
def simple_group_and_summarize (metaO : MetaOracle) (transO : TransOracle)
    (allOrgs : List String) (now : String) (items : List Rec) : WeeklySummary :=
  let groups := partitionGroups items
  let targetBlocks := targetSites.map (mkTargetBlock metaO transO groups.1)
  let orgBlock := mkOrgBlock allOrgs groups.2
  let others := mkOtherBlocks groups.1
  { generated_at := now,
    sites := stableSort blockLE (targetBlocks ++ [orgBlock] ++ others) }

/-- Dates are modelled as integer day numbers with day 0 a Monday, so
`weekday(d) = d % 7` (0 = Monday) and run_daily.get_week_start returns the
Monday of the week of `d`. -/
def get_week_start (d : Int) : Int := d - d % 7

/-- storage.save_week_results / save_daily_results: an unconditional
overwrite of the document stored under the key. -/
def storePut : List (Int × WeeklySummary) → Int → WeeklySummary → List (Int × WeeklySummary)
  | [], k, v => [(k, v)]
  | (k0, v0) :: rest, k, v =>
    if k0 = k then (k, v) :: rest else (k0, v0) :: storePut rest k v

/-- The `total_items` count computed by run_daily.run_once and
backfill_weeks.main over an existing stored summary. -/
def totalStoredItems (s : WeeklySummary) : Nat :=
  (s.sites.map (fun b => b.items.length)).sum

/-- The already-populated test of run_daily.run_once: the stored document
exists, its `sites` list is non-empty, and the total item count is
positive. -/
def shouldSkip : Option WeeklySummary → Bool
  | none => false
  | some s => !s.sites.isEmpty && totalStoredItems s != 0

/-- run_daily.run_once as a state transformer on the week and day stores.
`searchResult` is the value search_all_sites would return; the Bool result
records whether the retrieval pipeline actually ran.  Note both branches of
the Python weekday `if` compute the same previous-Monday value; the branch
is kept verbatim. -/
def run_once (weekStore dayStore : List (Int × WeeklySummary)) (today : Int)
    (searchResult : List Rec) (metaO : MetaOracle) (transO : TransOracle)
    (allOrgs : List String) (now : String) :
    List (Int × WeeklySummary) × List (Int × WeeklySummary) × Bool :=
  let week_start := if today % 7 = 0 then get_week_start today - 7 else get_week_start today - 7
  if shouldSkip (weekStore.lookup week_start) then (weekStore, dayStore, false)
  else if searchResult.isEmpty then (weekStore, dayStore, true)
  else
    let s0 := simple_group_and_summarize metaO transO allOrgs now searchResult
    let summary := { s0 with date := some today, week_start := some week_start,
                             week_end := some (week_start + 6), last_updated := some today }
    (storePut weekStore week_start summary, storePut dayStore today summary, true)

/-! ### Predicates used by the statements below -/

/-- Ascending comparison of two records by their effective sort key. -/
def rankLEP (a b : Rec) : Prop := rankKey a ≤ rankKey b

/-- A record whose url does not mention the preprint host (an absent url
yields the empty string, which contains nothing). -/
def notArxivUrl (r : Rec) : Bool := !(hasSubstr (r.url.getD "") "arxiv.org")

/-- Events that hit the shared Google provider (site pass or organization
pass). -/
def isGoogleEv : TraceEv → Bool
  | .arxivApi _ => false
  | .githubApi _ => false
  | .hfApi _ => false
  | .googleSite _ _ => true
  | .googleOrg _ _ => true

/-- Events in which the shared Google provider raised RateLimited. -/
def isGoogleRL : TraceEv → Bool
  | .arxivApi _ => false
  | .githubApi _ => false
  | .hfApi _ => false
  | .googleSite _ out => out == AdapterOut.rateLimited
  | .googleOrg _ out => out == AdapterOut.rateLimited

/-- The temporal property of the call trace: a Google rate-limit event is
never followed by another call to the Google provider. -/
def RelEv (a b : TraceEv) : Prop := isGoogleRL a = true → isGoogleEv b = false

/-- The source identifiers a record can carry after a run over the given
configured site list: a queried site, one of the three special adapters'
hosts, or the organization pseudo-source. -/
def allowedSite (sites : List String) (s : String) : Prop :=
  s ∈ sites ∨ s = "arxiv.org" ∨ s = "github.com" ∨ s = "huggingface.co" ∨ s = "organizations"

/-- Observable outcome of a google_site_search call: the number of records
on success. -/
def resLength : Except SErr (List Rec) → Option Nat
  | .ok l => some l.length
  | .error _ => none

/-- The translation capability failed: it returned nothing or only
whitespace. -/
def transFailed (o : Option String) : Prop :=
  ∀ z, o = some z → z.trim = ""

instance : DecidableRel rankLEP := fun a b => Nat.decLe (rankKey a) (rankKey b)

/-- Soundness of the site grouping: every member of a group carries the
group's key as its site and comes from the partitioned input. -/
def GroupsSound (items : List Rec) (g : List (String × List Rec)) : Prop :=
  ∀ p ∈ g, ∀ x ∈ p.2, x.site = p.1 ∧ x ∈ items

/-- Soundness of the organization grouping: every member is an
organization-pass record from the input. -/
def OrgGroupsSound (items : List Rec) (g : List (String × List Rec)) : Prop :=
  ∀ p ∈ g, ∀ x ∈ p.2, x.site = "organizations" ∧ x ∈ items

/-! ### Concrete data for witnesses and counterexamples -/

/-- A metadata oracle for which every resolution fails. -/
def noMetaOracle : MetaOracle := fun _ => (none, none, none)

/-- A translation oracle that always fails. -/
def noTransOracle : TransOracle := fun _ => none

/-- A provider catalogue of 31 items, all with links. -/
def cexMaster31 : List GItem :=
  (List.range 31).map (fun i => { title := some "t", link := some (toString i) })

/-- A provider page whose single item has no "link" key. -/
def cexNoLink : List GItem := [{ title := some "T", snippet := some "S" }]

/-- A crawl environment in which zhihu.com is served by the modelled
Google adapter over the link-less provider item. -/
def cexEnvNoLink : CrawlEnv where
  arxivA := .failed
  githubA := .failed
  hfA := .failed
  googleA := fun s => adapterOfExcept (google_site_search true s 10 (pagedFetch cexNoLink))
  googleOrgA := fun _ => .failed
  hasGoogle := true
  maxResultsPerSite := 10
  now := "2025-01-13T00:00:00"

/-- A GitHub repository record used by the C2 witness. -/
def cexGithubRec : Rec :=
  { site := "github.com", url := some "https://github.com/x/y", rank := some 1 }

/-- A crawl environment whose Google provider is always rate limited while
GitHub succeeds. -/
def cexEnvRL : CrawlEnv where
  arxivA := .failed
  githubA := .ok [cexGithubRec]
  hfA := .failed
  googleA := fun _ => .rateLimited
  googleOrgA := fun _ => .rateLimited
  hasGoogle := true
  maxResultsPerSite := 10
  now := "n"

/-- A record the general web-search adapter returns for the arxiv.org
fallback in the C5 witness. -/
def cexGoogleArxRec : Rec :=
  { site := "arxiv.org", url := some "https://arxiv.org/abs/2406.09246", rank := some 1 }

/-- A crawl environment in which the arXiv API is rate limited and Google
succeeds for every site. -/
def cexEnvFallback : CrawlEnv where
  arxivA := .rateLimited
  githubA := .failed
  hfA := .failed
  googleA := fun _ => .ok [cexGoogleArxRec]
  googleOrgA := fun _ => .failed
  hasGoogle := true
  maxResultsPerSite := 10
  now := "n"

/-- An arXiv search record whose url parses to an identifier. -/
def cexArxPaper : Rec :=
  { site := "arxiv.org", url := some "https://arxiv.org/abs/2406.09246",
    title := some "1 Introduction", rank := some 1 }

/-- An arXiv-site record pointing at a category listing page (no paper
identifier), carrying no rank. -/
def cexArxList : Rec := { site := "arxiv.org", url := some "https://arxiv.org/list/cs.AI" }

/-- An arXiv-site record with an off-host url and rank 5. -/
def cexArxR5 : Rec := { site := "arxiv.org", url := some "https://e.com/a", rank := some 5 }

/-- An arXiv-site record with an off-host url and rank 3. -/
def cexArxR3 : Rec := { site := "arxiv.org", url := some "https://e.com/b", rank := some 3 }

/-- The two-record scenario of the specification: source "A", ranks 2 and
1, urls u2 and u1. -/
def witScenarioA : List Rec :=
  [{ site := "A", rank := some 2, url := some "u2" },
   { site := "A", rank := some 1, url := some "u1" }]

/-- The SiteBlock the aggregator produces for source "A" on the scenario
input. -/
def witBlockA : SiteBlock :=
  { site := "A",
    site_summary := "A 上共发现 2 条与 VLA 相关的更新内容（按搜索相关性排序，显示 Top 2）。",
    items := [{ site := "A", rank := some 1, url := some "u1" },
              { site := "A", rank := some 2, url := some "u2" }] }

/-- A non-empty stored site block. -/
def witBlock : SiteBlock :=
  { site := "arxiv.org", site_summary := "s", items := [cexArxPaper] }

/-- A stored weekly summary containing one non-empty block. -/
def witWeekSummary : WeeklySummary :=
  { generated_at := "g", sites := [witBlock] }

/-- A week store already populated at week key 0. -/
def witWeekStore : List (Int × WeeklySummary) := [(0, witWeekSummary)]

/-- The records a concrete rate-limited run collects (GitHub only). -/
def witC6Raw : List Rec := (search_all_sites cexEnvRL ["zhihu.com", "github.com"] []).1

/-- The weekly document run_once persists for that concrete run on day 8
(week key 0). -/
def witC6Summary : WeeklySummary :=
  { simple_group_and_summarize noMetaOracle noTransOracle [] "g" witC6Raw with
      date := some 8, week_start := some 0, week_end := some 6, last_updated := some 8 }

/-! ### Enrichment lemmas -/

/-- A record outside the enrichment gate is passed through unchanged. -/
theorem enrichOne_of_notArxiv (metaO : MetaOracle) (transO : TransOracle) (r : Rec)
    (h : notArxivUrl r = true) : enrichOne metaO transO r = some r := by
  unfold notArxivUrl at h
  unfold enrichOne
  simp only [Bool.not_eq_true'] at h
  simp [h]

/-- Whatever enrichment does, it never touches the url, rank or site of a
record it keeps. -/
theorem enrichOne_fields (metaO : MetaOracle) (transO : TransOracle) {r r' : Rec}
    (h : enrichOne metaO transO r = some r') :
    r'.url = r.url ∧ r'.rank = r.rank ∧ r'.site = r.site := by
  unfold enrichOne at h
  dsimp only at h
  split at h
  · cases h; exact ⟨rfl, rfl, rfl⟩
  · split at h
    · cases h
    · cases h; exact ⟨rfl, rfl, rfl⟩

/-- A kept record agrees with its source on the enrichment gate. -/
theorem enrichOne_gate_eq (metaO : MetaOracle) (transO : TransOracle) {r r' : Rec}
    (h : enrichOne metaO transO r = some r') : notArxivUrl r' = notArxivUrl r := by
  unfold notArxivUrl
  rw [(enrichOne_fields metaO transO h).1]

/-- Records inside the gate whose url yields no identifier are dropped. -/
theorem enrichOne_drop (metaO : MetaOracle) (transO : TransOracle) (r : Rec)
    (h1 : hasSubstr (r.url.getD "") "arxiv.org" = true)
    (h2 : extract_arxiv_id (r.url.getD "") = none) :
    enrichOne metaO transO r = none := by
  have hne : ¬ (r.url.getD "" = "") := by
    intro he
    rw [he] at h1
    exact absurd h1 (by decide)
  simp [enrichOne, hne, h1, h2]

/-- C8 — Enrichment drops non-paper pages: every record of the enrichment
output whose url mentions the preprint host carries an extractable
identifier, and consequently an input record on the host without one is
absent from the output (never retained with null metadata). -/
theorem c8_enrichment_drops_unparseable (metaO : MetaOracle) (transO : TransOracle)
    (items : List Rec) :
    (∀ r' ∈ enrich_arxiv_items metaO transO items,
        hasSubstr (r'.url.getD "") "arxiv.org" = true →
        (extract_arxiv_id (r'.url.getD "")).isSome = true) ∧
    (∀ r ∈ items, hasSubstr (r.url.getD "") "arxiv.org" = true →
        extract_arxiv_id (r.url.getD "") = none →
        r ∉ enrich_arxiv_items metaO transO items) := by
  constructor
  · intro r' hr' hsub
    rcases List.mem_filterMap.1 hr' with ⟨a, _, ha⟩
    have hurl := (enrichOne_fields metaO transO ha).1
    by_cases hex : extract_arxiv_id (r'.url.getD "") = none
    · exfalso
      rw [hurl] at hsub hex
      rw [enrichOne_drop metaO transO a hsub hex] at ha
      cases ha
    · exact Option.ne_none_iff_isSome.1 hex
  · intro r _ hsub hex hmem
    rcases List.mem_filterMap.1 hmem with ⟨a, _, ha⟩
    have hurl := (enrichOne_fields metaO transO ha).1
    rw [hurl] at hsub hex
    rw [enrichOne_drop metaO transO a hsub hex] at ha
    cases ha

/-- C8 witness: the category-page record is dropped by a concrete
enrichment run. -/
theorem c8_witness :
    cexArxList ∉ enrich_arxiv_items noMetaOracle noTransOracle [cexArxList] :=
  (c8_enrichment_drops_unparseable noMetaOracle noTransOracle [cexArxList]).2
    cexArxList (by simp) (by decide) (by decide)

/-- C9 counterexample: the claim requires the abstract pair to be either
both absent or both equal to an (obtained) untranslated abstract.  For a
record whose metadata resolution fails entirely, no abstract is obtained,
so the claim forces both fields to be absent — but the code stores the
empty string in both, so the fields are present. -/
theorem c9_counterexample :
    ¬ (∀ r' ∈ enrich_arxiv_items noMetaOracle noTransOracle [cexArxPaper],
        r'.abstract = none ∧ r'.abstract_zh = none) := by
  decide

/-- C9 (amended) — Enrichment degradation: when metadata resolution fails,
the record keeps its provider-supplied title and url and both abstract
fields are set to the empty string; when an abstract is obtained but
translation fails, both fields hold the untranslated (non-empty)
abstract. -/
theorem c9_enrichment_degradation :
    (∀ (metaO : MetaOracle) (transO : TransOracle) (r : Rec) (id : String),
        hasSubstr (r.url.getD "") "arxiv.org" = true →
        extract_arxiv_id (r.url.getD "") = some id →
        metaO id = (none, none, none) →
        enrichOne metaO transO r =
          some { r with arxiv_id := some id, abstract := some "", abstract_zh := some "" }) ∧
    (∀ (metaO : MetaOracle) (transO : TransOracle) (r : Rec) (id : String)
        (t : Option String) (a : String) (au : Option (List String)),
        hasSubstr (r.url.getD "") "arxiv.org" = true →
        extract_arxiv_id (r.url.getD "") = some id →
        metaO id = (t, some a, au) → a ≠ "" → transFailed (transO a) →
        ∃ r', enrichOne metaO transO r = some r' ∧ r'.title = titleVal t r.title ∧
          r'.url = r.url ∧ r'.abstract = some a ∧ r'.abstract_zh = some a) := by
  constructor
  · intro metaO transO r id hsub hex hmeta
    have hne : ¬ (r.url.getD "" = "") := by
      intro he
      rw [he] at hsub
      exact absurd hsub (by decide)
    simp [enrichOne, hne, hsub, hex, hmeta, strTruthy, abstractVal, zhVal, titleVal, authorsVal]
  · intro metaO transO r id t a au hsub hex hmeta hne htr
    have hne0 : ¬ (r.url.getD "" = "") := by
      intro he
      rw [he] at hsub
      exact absurd hsub (by decide)
    have hzh : zhVal transO (some a) = a := by
      unfold zhVal
      cases hz : transO a with
      | none => simp [hz, hne]
      | some z => simp [hz, hne, htr z hz]
    refine ⟨{ r with
                arxiv_id := some id,
                title := titleVal t r.title,
                authors := authorsVal au r.authors,
                abstract := some a, abstract_zh := some a }, ?_, rfl, rfl, rfl, rfl⟩
    simp [enrichOne, hne0, hsub, hex, hmeta, abstractVal, hzh]

/-- C9 witness: a concrete record whose metadata resolution fails keeps
its title and url and gets the empty-string abstract pair. -/
theorem c9_witness :
    enrichOne noMetaOracle noTransOracle cexArxPaper =
      some { cexArxPaper with
               arxiv_id := some "2406.09246",
               abstract := some "", abstract_zh := some "" } :=
  c9_enrichment_degradation.1 noMetaOracle noTransOracle cexArxPaper "2406.09246"
    (by decide) (by decide) rfl

/-- The enrichment pass is invisible through the non-arXiv filter. -/
theorem enrich_filter_frame (metaO : MetaOracle) (transO : TransOracle) :
    ∀ items : List Rec,
      (enrich_arxiv_items metaO transO items).filter notArxivUrl = items.filter notArxivUrl
  | [] => rfl
  | r :: rest => by
    have ih := enrich_filter_frame metaO transO rest
    unfold enrich_arxiv_items at ih ⊢
    rw [List.filterMap_cons]
    cases h : enrichOne metaO transO r with
    | none =>
      have hna : notArxivUrl r = false := by
        cases hcase : notArxivUrl r
        · rfl
        · rw [enrichOne_of_notArxiv metaO transO r hcase] at h; cases h
      simp [List.filter_cons, hna, ih]
    | some r' =>
      have hg := enrichOne_gate_eq metaO transO h
      cases hcase : notArxivUrl r
      · have hg' : notArxivUrl r' = false := by rw [hg, hcase]
        simp [List.filter_cons, hcase, hg', ih]
      · have hrr : r' = r := by
          rw [enrichOne_of_notArxiv metaO transO r hcase] at h
          exact (Option.some.inj h).symm
        subst hrr
        simp [List.filter_cons, hcase, ih]

/-- The enrichment output embeds, in order, into the per-item transformed
input. -/
theorem enrich_sublist_frame (metaO : MetaOracle) (transO : TransOracle) :
    ∀ items : List Rec,
      (enrich_arxiv_items metaO transO items).Sublist
        (items.map (fun r => (enrichOne metaO transO r).getD r))
  | [] => .slnil
  | r :: rest => by
    unfold enrich_arxiv_items
    rw [List.filterMap_cons, List.map_cons]
    cases h : enrichOne metaO transO r with
    | none => exact .cons _ (enrich_sublist_frame metaO transO rest)
    | some r' =>
      simp only [Option.getD_some]
      exact .cons₂ _ (enrich_sublist_frame metaO transO rest)

/-- C10 — Enrichment is a no-op outside its scope: records whose url does
not mention the preprint host (absent urls included) pass through
unchanged and in their original positions: filtering the output by the
gate predicate recovers exactly the same filtered input, each such record
stays in the output, and the whole output embeds order-preservingly into
the per-item image of the input. -/
theorem c10_enrichment_frame (metaO : MetaOracle) (transO : TransOracle) (items : List Rec) :
    (enrich_arxiv_items metaO transO items).filter notArxivUrl = items.filter notArxivUrl ∧
    (∀ r ∈ items, notArxivUrl r = true → r ∈ enrich_arxiv_items metaO transO items) ∧
    (enrich_arxiv_items metaO transO items).Sublist
      (items.map (fun r => (enrichOne metaO transO r).getD r)) := by
  refine ⟨enrich_filter_frame metaO transO items, ?_, enrich_sublist_frame metaO transO items⟩
  intro r hmem h
  have hr : r ∈ items.filter notArxivUrl := List.mem_filter.2 ⟨hmem, h⟩
  rw [← enrich_filter_frame metaO transO items] at hr
  exact (List.mem_filter.1 hr).1

/-- C10 witness: a concrete off-host record survives a concrete enrichment
run unchanged. -/
theorem c10_witness :
    cexArxR5 ∈ enrich_arxiv_items noMetaOracle noTransOracle [cexArxList, cexArxR5] :=
  (c10_enrichment_frame noMetaOracle noTransOracle [cexArxList, cexArxR5]).2.1
    cexArxR5 (by decide) (by decide)

/-! ### Weekly driver (C1) -/

/-- C1 — Idempotence of the weekly driver: when the stored summary for the
target week already holds a SiteBlock with at least one item, run_once
performs no search (third component false) and leaves both stores exactly
as they were. -/
theorem c1_run_once_skips_populated_week
    (weekStore dayStore : List (Int × WeeklySummary)) (today : Int)
    (searchResult : List Rec) (metaO : MetaOracle) (transO : TransOracle)
    (allOrgs : List String) (now : String) (s : WeeklySummary) (b : SiteBlock)
    (hload : weekStore.lookup (get_week_start today - 7) = some s)
    (hb : b ∈ s.sites) (hne : b.items ≠ []) :
    run_once weekStore dayStore today searchResult metaO transO allOrgs now =
      (weekStore, dayStore, false) := by
  have hskip : shouldSkip (some s) = true := by
    unfold shouldSkip totalStoredItems
    have h1 : s.sites.isEmpty = false := by
      cases hs : s.sites with
      | nil => rw [hs] at hb; cases hb
      | cons x xs => rfl
    have h2 : 0 < (s.sites.map (fun b => b.items.length)).sum := by
      have hmem : b.items.length ∈ s.sites.map (fun b => b.items.length) :=
        List.mem_map_of_mem _ hb
      exact Nat.lt_of_lt_of_le (List.length_pos.2 hne)
        (List.single_le_sum (fun _ _ => Nat.zero_le _) _ hmem)
    simp [h1, Nat.pos_iff_ne_zero.1 h2]
  unfold run_once
  simp only [ite_self, hload, hskip, if_pos]

/-- C1 witness: a concrete already-populated week short-circuits a
concrete run. -/
theorem c1_witness :
    run_once witWeekStore [] 8 [cexArxR5] noMetaOracle noTransOracle [] "now" =
      (witWeekStore, [], false) :=
  c1_run_once_skips_populated_week witWeekStore [] 8 [cexArxR5] noMetaOracle noTransOracle
    [] "now" witWeekSummary witBlock (by decide) (by decide) (by decide)

/-! ### Aggregator lemmas (C3, C4, C6) -/

theorem insertSorted_perm {α : Type} (le : α → α → Bool) (x : α) :
    ∀ l : List α, (insertSorted le x l).Perm (x :: l)
  | [] => .refl _
  | y :: ys => by
    rw [insertSorted]
    by_cases h : le y x = true
    · rw [if_pos h]
      exact ((insertSorted_perm le x ys).cons y).trans (List.Perm.swap x y ys)
    · rw [if_neg h]

theorem stableSort_aux_perm {α : Type} (le : α → α → Bool) :
    ∀ (l acc : List α), (l.foldl (fun a x => insertSorted le x a) acc).Perm (acc ++ l)
  | [], acc => by simp
  | x :: rest, acc => by
    rw [List.foldl_cons]
    refine (stableSort_aux_perm le rest (insertSorted le x acc)).trans ?_
    refine (List.Perm.append_right rest (insertSorted_perm le x acc)).trans ?_
    exact List.perm_middle.symm

/-- The stable sort is a permutation of its input. -/
theorem stableSort_perm {α : Type} (le : α → α → Bool) (l : List α) :
    (stableSort le l).Perm l := by
  unfold stableSort
  simpa using stableSort_aux_perm le l []

theorem insertSorted_sorted {α : Type} (le : α → α → Bool)
    (htrans : ∀ a b c, le a b = true → le b c = true → le a c = true)
    (htot : ∀ a b, (le a b || le b a) = true) (x : α) :
    ∀ l : List α, l.Pairwise (fun a b => le a b = true) →
      (insertSorted le x l).Pairwise (fun a b => le a b = true)
  | [], _ => List.pairwise_singleton _ _
  | y :: ys, h => by
    rw [insertSorted]
    rcases List.pairwise_cons.1 h with ⟨hy, hys⟩
    by_cases hle : le y x = true
    · rw [if_pos hle]
      refine List.pairwise_cons.2 ⟨?_, insertSorted_sorted le htrans htot x ys hys⟩
      intro b hb
      rcases List.mem_cons.1 ((insertSorted_perm le x ys).mem_iff.1 hb) with rfl | hbm
      · exact hle
      · exact hy b hbm
    · rw [if_neg hle]
      have hxy : le x y = true := by
        rcases Bool.or_eq_true_iff.mp (htot x y) with h1 | h1
        · exact h1
        · exact absurd h1 hle
      refine List.pairwise_cons.2 ⟨?_, h⟩
      intro b hb
      rcases List.mem_cons.1 hb with rfl | hbm
      · exact hxy
      · exact htrans x y b hxy (hy b hbm)

theorem stableSort_aux_sorted {α : Type} (le : α → α → Bool)
    (htrans : ∀ a b c, le a b = true → le b c = true → le a c = true)
    (htot : ∀ a b, (le a b || le b a) = true) :
    ∀ (l acc : List α), acc.Pairwise (fun a b => le a b = true) →
      (l.foldl (fun a x => insertSorted le x a) acc).Pairwise (fun a b => le a b = true)
  | [], _, h => h
  | x :: rest, acc, h => by
    rw [List.foldl_cons]
    exact stableSort_aux_sorted le htrans htot rest _ (insertSorted_sorted le htrans htot x acc h)

/-- The stable sort produces an ascending list for any total transitive
boolean comparison. -/
theorem stableSort_sorted {α : Type} (le : α → α → Bool)
    (htrans : ∀ a b c, le a b = true → le b c = true → le a c = true)
    (htot : ∀ a b, (le a b || le b a) = true) (l : List α) :
    (stableSort le l).Pairwise (fun a b => le a b = true) :=
  stableSort_aux_sorted le htrans htot l [] .nil

theorem rankLE_trans (a b c : Rec) (h1 : rankLE a b = true) (h2 : rankLE b c = true) :
    rankLE a c = true := by
  unfold rankLE at *
  exact decide_eq_true (Nat.le_trans (of_decide_eq_true h1) (of_decide_eq_true h2))

theorem rankLE_total (a b : Rec) : (rankLE a b || rankLE b a) = true := by
  unfold rankLE
  rcases Nat.le_total (rankKey a) (rankKey b) with h | h
  · rw [decide_eq_true h]; rfl
  · rw [decide_eq_true h, Bool.or_true]

/-- The conditional sort is a permutation of its input. -/
theorem sortIfRanked_perm : ∀ l : List Rec, (sortIfRanked l).Perm l
  | [] => .refl _
  | r :: rest => by
    rw [sortIfRanked]
    by_cases h : r.rank.isSome = true
    · rw [if_pos h]; exact stableSort_perm rankLE _
    · rw [if_neg h]

/-- When every record of the group carries a rank, the group's first
record does, so the conditional sort fires and yields a rank-ascending
list. -/
theorem sortIfRanked_sorted : ∀ l : List Rec, (∀ r ∈ l, r.rank.isSome = true) →
    (sortIfRanked l).Pairwise rankLEP
  | [], _ => .nil
  | r :: rest, h => by
    rw [sortIfRanked, if_pos (h r (List.mem_cons_self r rest))]
    exact (stableSort_sorted rankLE rankLE_trans rankLE_total (r :: rest)).imp
      (fun hab => of_decide_eq_true hab)

/-- Enrichment does not disturb a rank-ascending list: kept records keep
their ranks. -/
theorem enrich_pairwise_rank (metaO : MetaOracle) (transO : TransOracle) (l : List Rec)
    (h : l.Pairwise rankLEP) :
    (enrich_arxiv_items metaO transO l).Pairwise rankLEP := by
  unfold enrich_arxiv_items
  rw [List.pairwise_filterMap]
  refine h.imp ?_
  intro a a' hle b hb b' hb'
  have e1 := (enrichOne_fields metaO transO (Option.mem_def.1 hb)).2.1
  have e2 := (enrichOne_fields metaO transO (Option.mem_def.1 hb')).2.1
  unfold rankLEP rankKey at *
  rw [e1, e2]
  exact hle

/-- Looking a key up in an association list finds an actual entry. -/
theorem lookup_mem {β : Type} (s : String) (l : β) :
    ∀ g : List (String × β), g.lookup s = some l → (s, l) ∈ g := by
  intro g
  induction g with
  | nil => intro h; cases h
  | cons p rest ih =>
    intro h
    rcases p with ⟨k, v⟩
    rw [List.lookup] at h
    cases hk : (s == k) with
    | true =>
      rw [hk] at h
      cases h
      have : s = k := beq_iff_eq.1 hk
      subst this
      exact List.mem_cons_self _ _
    | false =>
      rw [hk] at h
      exact List.mem_cons_of_mem _ (ih h)

/-- Adding a record to a group keeps grouping soundness. -/
theorem insertGroup_sound (items : List Rec) (key : String) (r : Rec)
    (hsite : r.site = key) (hmem : r ∈ items) :
    ∀ g : List (String × List Rec), GroupsSound items g →
      GroupsSound items (insertGroup key r g) := by
  intro g
  induction g with
  | nil =>
    intro _ p hp x hx
    rw [insertGroup] at hp
    rcases List.mem_singleton.1 hp with rfl
    rcases List.mem_singleton.1 hx with rfl
    exact ⟨hsite, hmem⟩
  | cons q rest ih =>
    intro hs p hp x hx
    rw [insertGroup] at hp
    by_cases hk : q.1 = key
    · rw [if_pos hk] at hp
      rcases List.mem_cons.1 hp with rfl | hp2
      · rcases List.mem_append.1 hx with hx1 | hx2
        · have := hs q (List.mem_cons_self _ _) x hx1
          exact ⟨by rw [this.1, hk], this.2⟩
        · rcases List.mem_singleton.1 hx2 with rfl
          exact ⟨by rw [hsite, hk], hmem⟩
      · exact hs p (List.mem_cons_of_mem _ hp2) x hx
    · rw [if_neg hk] at hp
      rcases List.mem_cons.1 hp with rfl | hp2
      · exact hs _ (List.mem_cons_self _ _) x hx
      · exact ih (fun p2 hp3 => hs p2 (List.mem_cons_of_mem _ hp3)) p hp2 x hx

/-- Same statement for the organization grouping. -/
theorem insertGroup_org_sound (items : List Rec) (key : String) (r : Rec)
    (hsite : r.site = "organizations") (hmem : r ∈ items) :
    ∀ g : List (String × List Rec), OrgGroupsSound items g →
      OrgGroupsSound items (insertGroup key r g) := by
  intro g
  induction g with
  | nil =>
    intro _ p hp x hx
    rw [insertGroup] at hp
    rcases List.mem_singleton.1 hp with rfl
    rcases List.mem_singleton.1 hx with rfl
    exact ⟨hsite, hmem⟩
  | cons q rest ih =>
    intro hs p hp x hx
    rw [insertGroup] at hp
    by_cases hk : q.1 = key
    · rw [if_pos hk] at hp
      rcases List.mem_cons.1 hp with rfl | hp2
      · rcases List.mem_append.1 hx with hx1 | hx2
        · exact hs q (List.mem_cons_self _ _) x hx1
        · rcases List.mem_singleton.1 hx2 with rfl
          exact ⟨hsite, hmem⟩
      · exact hs p (List.mem_cons_of_mem _ hp2) x hx
    · rw [if_neg hk] at hp
      rcases List.mem_cons.1 hp with rfl | hp2
      · exact hs _ (List.mem_cons_self _ _) x hx
      · exact ih (fun p2 hp3 => hs p2 (List.mem_cons_of_mem _ hp3)) p hp2 x hx

/-- Both grouping dicts built by the partition loop are sound. -/
theorem partitionGroups_sound (items : List Rec) :
    GroupsSound items (partitionGroups items).1 ∧
    OrgGroupsSound items (partitionGroups items).2 := by
  unfold partitionGroups
  suffices h : ∀ (xs : List Rec) (acc : List (String × List Rec) × List (String × List Rec)),
      (∀ x ∈ xs, x ∈ items) → GroupsSound items acc.1 → OrgGroupsSound items acc.2 →
      GroupsSound items (xs.foldl groupStep acc).1 ∧
        OrgGroupsSound items (xs.foldl groupStep acc).2 by
    exact h items ([], []) (fun x hx => hx) (fun p hp => by cases hp) (fun p hp => by cases hp)
  intro xs
  induction xs with
  | nil => intro acc _ h1 h2; exact ⟨h1, h2⟩
  | cons x rest ih =>
    intro acc hxs h1 h2
    rw [List.foldl_cons]
    refine ih _ (fun y hy => hxs y (List.mem_cons_of_mem _ hy)) ?_ ?_
    · unfold groupStep
      by_cases hx : x.site = "organizations"
      · rw [if_pos hx]; exact h1
      · rw [if_neg hx]
        exact insertGroup_sound items x.site x rfl (hxs x (List.mem_cons_self _ _)) acc.1 h1
    · unfold groupStep
      by_cases hx : x.site = "organizations"
      · rw [if_pos hx]
        exact insertGroup_org_sound items _ x hx (hxs x (List.mem_cons_self _ _)) acc.2 h2
      · rw [if_neg hx]; exact h2

/-- Every record of a looked-up site group carries that site and comes
from the input. -/
theorem getGroup_sound (items : List Rec) (s : String) :
    ∀ x ∈ getGroup (partitionGroups items).1 s, x.site = s ∧ x ∈ items := by
  intro x hx
  unfold getGroup at hx
  cases hl : ((partitionGroups items).1).lookup s with
  | none => rw [hl] at hx; cases hx
  | some l =>
    rw [hl] at hx
    exact (partitionGroups_sound items).1 (s, l) (lookup_mem s l _ hl) x hx

theorem mkTargetBlock_site (metaO : MetaOracle) (transO : TransOracle)
    (g : List (String × List Rec)) (s : String) :
    (mkTargetBlock metaO transO g s).site = s := rfl

theorem mkOrgBlock_site (allOrgs : List String) (og : List (String × List Rec)) :
    (mkOrgBlock allOrgs og).site = "organizations" := rfl

/-- Every block of the aggregated output is an always-shown block, the
organization block, or a leftover-site block. -/
theorem sites_mem_cases (metaO : MetaOracle) (transO : TransOracle)
    (allOrgs : List String) (now : String) (items : List Rec) (b : SiteBlock)
    (hb : b ∈ (simple_group_and_summarize metaO transO allOrgs now items).sites) :
    (∃ s ∈ targetSites, b = mkTargetBlock metaO transO (partitionGroups items).1 s) ∨
    b = mkOrgBlock allOrgs (partitionGroups items).2 ∨
    b ∈ mkOtherBlocks (partitionGroups items).1 := by
  unfold simple_group_and_summarize at hb
  dsimp only at hb
  rw [(stableSort_perm blockLE _).mem_iff] at hb
  rcases List.mem_append.1 hb with h12 | h3
  · rcases List.mem_append.1 h12 with h1 | h2
    · left
      rcases List.mem_map.1 h1 with ⟨s, hs, rfl⟩
      exact ⟨s, hs, rfl⟩
    · right; left; exact List.mem_singleton.1 h2
  · right; right; exact h3

/-- Sorting a fully ranked group and truncating it yields a rank-ascending
list. -/
theorem pairwise_take_sort (G : List Rec) (h : ∀ r ∈ G, r.rank.isSome = true) (n : Nat) :
    ((sortIfRanked G).take n).Pairwise rankLEP :=
  List.Pairwise.sublist (List.take_sublist n _) (sortIfRanked_sorted G h)

/-- The items of an always-shown block: capped sort of its group, enriched
for arxiv.org. -/
theorem mkTargetBlock_items (metaO : MetaOracle) (transO : TransOracle)
    (g : List (String × List Rec)) (s : String) :
    (mkTargetBlock metaO transO g s).items =
      (if s = "arxiv.org" && !((sortIfRanked (getGroup g s)).take 30).isEmpty then
        enrich_arxiv_items metaO transO ((sortIfRanked (getGroup g s)).take 30)
      else (sortIfRanked (getGroup g s)).take 30) := rfl

/-- C3 counterexample (claim as stated): an arxiv.org group headed by a
rank-less category-page record is left unsorted, and enrichment then
drops that head, leaving a block whose items all carry ranks but are not
ascending. -/
theorem c3_counterexample :
    ∃ b ∈ (simple_group_and_summarize noMetaOracle noTransOracle [] "g"
        [cexArxList, cexArxR5, cexArxR3]).sites,
      ¬ b.site = "organizations" ∧ (∀ r ∈ b.items, r.rank.isSome = true) ∧
      ¬ b.items.Pairwise rankLEP := by
  decide

/-- C3 (amended) — Within-site rank order: in every non-organization
SiteBlock, whenever all input records grouped into that block (those
carrying the block's source id) have a rank, the block's items are sorted
ascending by rank. -/
theorem c3_within_site_rank_order (metaO : MetaOracle) (transO : TransOracle)
    (allOrgs : List String) (now : String) (items : List Rec) (b : SiteBlock)
    (hb : b ∈ (simple_group_and_summarize metaO transO allOrgs now items).sites)
    (hnotorg : b.site ≠ "organizations")
    (hall : ∀ r ∈ items, r.site = b.site → r.rank.isSome = true) :
    b.items.Pairwise rankLEP := by
  rcases sites_mem_cases metaO transO allOrgs now items b hb with ⟨s, _, rfl⟩ | rfl | hoth
  · have hG : ∀ r ∈ getGroup (partitionGroups items).1 s, r.rank.isSome = true := by
      intro r hr
      have hs := getGroup_sound items s r hr
      exact hall r hs.2 (by rw [hs.1, mkTargetBlock_site])
    rw [mkTargetBlock_items]
    split
    · exact enrich_pairwise_rank metaO transO _ (pairwise_take_sort _ hG 30)
    · exact pairwise_take_sort _ hG 30
  · exact absurd (mkOrgBlock_site allOrgs (partitionGroups items).2) hnotorg
  · unfold mkOtherBlocks at hoth
    rcases List.mem_map.1 hoth with ⟨p, hp, rfl⟩
    have hpg : p ∈ (partitionGroups items).1 := (List.mem_filter.1 hp).1
    have hsound := (partitionGroups_sound items).1 p hpg
    have hG : ∀ r ∈ p.2, r.rank.isSome = true := fun r hr =>
      hall r (hsound r hr).2 (hsound r hr).1
    exact pairwise_take_sort p.2 hG 30

/-- C3 witness: the specification's two-record scenario yields the "A"
block with items ordered `[u1, u2]`, ascending by rank. -/
theorem c3_witness :
    witBlockA ∈ (simple_group_and_summarize noMetaOracle noTransOracle [] "g" witScenarioA).sites ∧
    witBlockA.items.map (fun r => r.url.getD "") = ["u1", "u2"] ∧
    witBlockA.items.Pairwise rankLEP :=
  ⟨by decide, by decide,
    c3_within_site_rank_order noMetaOracle noTransOracle [] "g" witScenarioA witBlockA
      (by decide) (by decide) (by decide)⟩

/-- Per-block cap for an always-shown block: truncation to 30 followed by
a pass that can only drop records. -/
theorem mkTargetBlock_items_le (metaO : MetaOracle) (transO : TransOracle)
    (g : List (String × List Rec)) (s : String) :
    (mkTargetBlock metaO transO g s).items.length ≤ 30 := by
  rw [mkTargetBlock_items]
  split
  · exact le_trans (List.length_filterMap_le _ _)
      (by rw [List.length_take]; exact min_le_left _ _)
  · rw [List.length_take]; exact min_le_left _ _

/-- The organization block is capped at 100. -/
theorem mkOrgBlock_items_le (allOrgs : List String) (og : List (String × List Rec)) :
    (mkOrgBlock allOrgs og).items.length ≤ 100 := by
  show ((sortIfRanked (allOrgs.foldl (orgAccum og) ([], [])).1).take 100).length ≤ 100
  rw [List.length_take]
  exact min_le_left _ _

/-- Leftover-site blocks are capped at 30. -/
theorem mkOtherBlocks_items_le (g : List (String × List Rec)) (b : SiteBlock)
    (hb : b ∈ mkOtherBlocks g) : b.items.length ≤ 30 := by
  unfold mkOtherBlocks at hb
  rcases List.mem_map.1 hb with ⟨p, _, rfl⟩
  show ((sortIfRanked p.2).take 30).length ≤ 30
  rw [List.length_take]
  exact min_le_left _ _

/-- Leftover-site blocks never carry the organization pseudo-source. -/
theorem mkOtherBlocks_site_ne (g : List (String × List Rec)) (b : SiteBlock)
    (hb : b ∈ mkOtherBlocks g) : b.site ≠ "organizations" := by
  unfold mkOtherBlocks at hb
  rcases List.mem_map.1 hb with ⟨p, hp, rfl⟩
  exact of_decide_eq_true (Bool.and_elim_right (List.mem_filter.1 hp).2)

/-- Summing capped blocks: with every non-organization block at 30 or
fewer items, the organization block at 100 or fewer, and at most one
organization block, the total is bounded by 30 per non-organization block
plus 100. -/
theorem capSum : ∀ l : List SiteBlock,
    (∀ b ∈ l, b.site ≠ "organizations" → b.items.length ≤ 30) →
    (∀ b ∈ l, b.site = "organizations" → b.items.length ≤ 100) →
    l.countP (fun b => decide (b.site = "organizations")) ≤ 1 →
    (l.map (fun b => b.items.length)).sum ≤
      30 * (l.filter (fun b => decide (b.site ≠ "organizations"))).length + 100
  | [], _, _, _ => by simp
  | b :: l, h30, h100, hc => by
    rw [List.map_cons, List.sum_cons, List.filter_cons]
    by_cases horg : b.site = "organizations"
    · have hcl : l.countP (fun b => decide (b.site = "organizations")) = 0 := by
        rw [List.countP_cons] at hc
        simp only [decide_eq_true horg, if_pos] at hc
        omega
      have hall : ∀ x ∈ l, x.site ≠ "organizations" :=
        fun x hx => of_decide_eq_false (Bool.eq_false_iff.2
          (fun hd => (List.countP_eq_zero.1 hcl) x hx hd))
      have hsum : (l.map (fun b => b.items.length)).sum ≤ l.length * 30 := by
        have := List.sum_le_card_nsmul (l.map (fun b => b.items.length)) 30 ?_
        · simpa [List.length_map, Nat.smul_one_eq_cast] using this
        · intro x hx
          rcases List.mem_map.1 hx with ⟨c, hc2, rfl⟩
          exact h30 c (List.mem_cons_of_mem _ hc2) (hall c hc2)
      have hflt : l.filter (fun b => decide (b.site ≠ "organizations")) = l :=
        List.filter_eq_self.2 (fun x hx => decide_eq_true (hall x hx))
      rw [if_neg (by simp [horg])]
      rw [hflt]
      have hb100 := h100 b (List.mem_cons_self _ _) horg
      omega
    · have hb30 := h30 b (List.mem_cons_self _ _) horg
      have hcl : l.countP (fun b => decide (b.site = "organizations")) ≤ 1 := by
        rw [List.countP_cons] at hc
        omega
      have ih := capSum l (fun x hx => h30 x (List.mem_cons_of_mem _ hx))
        (fun x hx => h100 x (List.mem_cons_of_mem _ hx)) hcl
      rw [if_pos (decide_eq_true horg)]
      rw [List.length_cons]
      omega

/-- The aggregated output contains exactly one organization block. -/
theorem sites_org_count (metaO : MetaOracle) (transO : TransOracle)
    (allOrgs : List String) (now : String) (items : List Rec) :
    ((simple_group_and_summarize metaO transO allOrgs now items).sites).countP
      (fun b => decide (b.site = "organizations")) = 1 := by
  unfold simple_group_and_summarize
  dsimp only
  rw [(stableSort_perm blockLE _).countP_eq]
  rw [List.countP_append, List.countP_append]
  have h1 : (targetSites.map (mkTargetBlock metaO transO (partitionGroups items).1)).countP
      (fun b => decide (b.site = "organizations")) = 0 := by
    rw [List.countP_map]
    apply List.countP_eq_zero.2
    intro s hs
    have hne : ∀ t ∈ targetSites, t ≠ "organizations" := by decide
    simp only [Function.comp_apply, mkTargetBlock_site, decide_eq_true_eq]
    exact hne s hs
  have h2 : ([mkOrgBlock allOrgs (partitionGroups items).2]).countP
      (fun b => decide (b.site = "organizations")) = 1 := by
    simp [List.countP_cons, mkOrgBlock_site]
  have h3 : (mkOtherBlocks (partitionGroups items).1).countP
      (fun b => decide (b.site = "organizations")) = 0 := by
    apply List.countP_eq_zero.2
    intro b hb
    simpa using mkOtherBlocks_site_ne _ b hb
  rw [h1, h2, h3]

/-- C4 — Per-source caps: every non-organization block holds at most 30
items, the organization block at most 100, and the total item count is at
most 30 per non-organization block plus 100. -/
theorem c4_per_source_caps (metaO : MetaOracle) (transO : TransOracle)
    (allOrgs : List String) (now : String) (items : List Rec) :
    (∀ b ∈ (simple_group_and_summarize metaO transO allOrgs now items).sites,
        b.site ≠ "organizations" → b.items.length ≤ 30) ∧
    (∀ b ∈ (simple_group_and_summarize metaO transO allOrgs now items).sites,
        b.site = "organizations" → b.items.length ≤ 100) ∧
    ((simple_group_and_summarize metaO transO allOrgs now items).sites.map
        (fun b => b.items.length)).sum ≤
      30 * ((simple_group_and_summarize metaO transO allOrgs now items).sites.filter
        (fun b => decide (b.site ≠ "organizations"))).length + 100 := by
  have h30 : ∀ b ∈ (simple_group_and_summarize metaO transO allOrgs now items).sites,
      b.site ≠ "organizations" → b.items.length ≤ 30 := by
    intro b hb hne
    rcases sites_mem_cases metaO transO allOrgs now items b hb with ⟨s, _, rfl⟩ | rfl | hoth
    · exact mkTargetBlock_items_le metaO transO _ s
    · exact absurd (mkOrgBlock_site allOrgs _) hne
    · exact mkOtherBlocks_items_le _ b hoth
  have h100 : ∀ b ∈ (simple_group_and_summarize metaO transO allOrgs now items).sites,
      b.site = "organizations" → b.items.length ≤ 100 := by
    intro b hb heq
    rcases sites_mem_cases metaO transO allOrgs now items b hb with ⟨s, hs, rfl⟩ | rfl | hoth
    · exfalso
      rw [mkTargetBlock_site] at heq
      subst heq
      exact absurd hs (by decide)
    · exact mkOrgBlock_items_le allOrgs _
    · exact absurd heq (mkOtherBlocks_site_ne _ b hoth)
  exact ⟨h30, h100,
    capSum _ h30 h100 (le_of_eq (sites_org_count metaO transO allOrgs now items))⟩

/-- C4 witness: the caps hold on a concrete aggregation. -/
theorem c4_witness :
    (((simple_group_and_summarize noMetaOracle noTransOracle [] "g" witScenarioA).sites.map
        (fun b => b.items.length)).sum ≤
      30 * ((simple_group_and_summarize noMetaOracle noTransOracle [] "g" witScenarioA).sites.filter
        (fun b => decide (b.site ≠ "organizations"))).length + 100) ∧
    witBlockA.items.length ≤ 30 :=
  ⟨(c4_per_source_caps noMetaOracle noTransOracle [] "g" witScenarioA).2.2,
   (c4_per_source_caps noMetaOracle noTransOracle [] "g" witScenarioA).1 witBlockA
     (by decide) (by decide)⟩

/-! ### Orchestrator lemmas (C2, C5) -/

theorem googleStep_rl_true (E : CrawlEnv) (site : String) :
    googleStep E true site = ([], [], true) := by
  simp [googleStep]

theorem googleStep_google_events (E : CrawlEnv) (rl : Bool) (site : String) :
    ∀ e ∈ (googleStep E rl site).2.1, isGoogleEv e = true := by
  unfold googleStep
  split
  · cases hA : E.googleA site <;> simp [isGoogleEv]
  · simp

theorem googleStep_pairwise (E : CrawlEnv) (rl : Bool) (site : String) :
    ((googleStep E rl site).2.1).Pairwise RelEv := by
  unfold googleStep
  split
  · cases hA : E.googleA site <;> simp
  · simp

theorem googleStep_flag_of_rl_event (E : CrawlEnv) (rl : Bool) (site : String) :
    ∀ e ∈ (googleStep E rl site).2.1, isGoogleRL e = true →
      (googleStep E rl site).2.2 = true := by
  unfold googleStep
  split
  · cases hA : E.googleA site <;> simp [isGoogleRL]
  · simp

theorem googleStep_flag_noRL (E : CrawlEnv) (site : String)
    (hne : E.googleA site ≠ .rateLimited) :
    (googleStep E false site).2.2 = false := by
  unfold googleStep
  split
  · cases hA : E.googleA site
    · simp
    · exact absurd hA hne
    · simp
  · rfl

/-- With the flag already set, a site contributes no Google event and the
flag stays set. -/
theorem processSite_rl_true (E : CrawlEnv) (site : String) :
    (processSite E true site).2.2 = true ∧
    ∀ e ∈ (processSite E true site).2.1, isGoogleEv e = false := by
  unfold processSite
  split
  · cases hA : E.arxivA with
    | ok recs =>
      cases hre : recs.isEmpty <;> simp [hre, googleStep_rl_true, isGoogleEv]
    | rateLimited => simp [googleStep_rl_true, isGoogleEv]
    | failed => simp [googleStep_rl_true, isGoogleEv]
  · split
    · cases hA : E.githubA <;> simp [isGoogleEv]
    · split
      · cases hA : E.hfA <;> simp [isGoogleEv]
      · simp [googleStep_rl_true]

/-- The events of a single site are internally ordered: a Google
rate-limit can only be its last event. -/
theorem processSite_pairwise (E : CrawlEnv) (rl : Bool) (site : String) :
    ((processSite E rl site).2.1).Pairwise RelEv := by
  have harx : ∀ out : AdapterOut,
      (TraceEv.arxivApi out :: (googleStep E rl site).2.1).Pairwise RelEv := by
    intro out
    refine List.pairwise_cons.2 ⟨?_, googleStep_pairwise E rl site⟩
    intro e _ h
    simp [isGoogleRL] at h
  unfold processSite
  split
  · cases hA : E.arxivA with
    | ok recs =>
      cases hre : recs.isEmpty
      · simp only [hre, Bool.false_eq_true, if_false]
        exact List.pairwise_singleton RelEv (TraceEv.arxivApi (.ok recs))
      · simpa [hre] using harx (.ok recs)
    | rateLimited => exact harx .rateLimited
    | failed => exact harx .failed
  · split
    · cases hA : E.githubA <;> exact List.pairwise_singleton _ _
    · split
      · cases hA : E.hfA <;> exact List.pairwise_singleton _ _
      · exact googleStep_pairwise E rl site

/-- If a site's events contain a Google rate-limit, the flag leaves the
site set. -/
theorem processSite_flag_of_rl_event (E : CrawlEnv) (rl : Bool) (site : String) :
    ∀ e ∈ (processSite E rl site).2.1, isGoogleRL e = true →
      (processSite E rl site).2.2 = true := by
  unfold processSite
  split
  · cases hA : E.arxivA with
    | ok recs =>
      cases hre : recs.isEmpty
      · intro e he hrl
        rcases List.mem_singleton.1 (by simpa [hre] using he) with rfl
        simp [isGoogleRL] at hrl
      · intro e he hrl
        rcases List.mem_cons.1 (by simpa [hre] using he) with rfl | he2
        · simp [isGoogleRL] at hrl
        · simpa [hre] using googleStep_flag_of_rl_event E rl site e he2 hrl
    | rateLimited =>
      intro e he hrl
      rcases List.mem_cons.1 he with rfl | he2
      · simp [isGoogleRL] at hrl
      · exact googleStep_flag_of_rl_event E rl site e he2 hrl
    | failed =>
      intro e he hrl
      rcases List.mem_cons.1 he with rfl | he2
      · simp [isGoogleRL] at hrl
      · exact googleStep_flag_of_rl_event E rl site e he2 hrl
  · split
    · cases hA : E.githubA <;>
        (intro e he hrl
         rcases List.mem_singleton.1 he with rfl
         simp [isGoogleRL] at hrl)
    · split
      · cases hA : E.hfA <;>
          (intro e he hrl
           rcases List.mem_singleton.1 he with rfl
           simp [isGoogleRL] at hrl)
      · exact googleStep_flag_of_rl_event E rl site

/-- The flag survives a site untouched when Google never rate-limits. -/
theorem processSite_flag_noRL (E : CrawlEnv) (site : String)
    (hne : E.googleA site ≠ .rateLimited) :
    (processSite E false site).2.2 = false := by
  unfold processSite
  split
  · cases hA : E.arxivA with
    | ok recs =>
      cases hre : recs.isEmpty
      · simp [hre]
      · simpa [hre] using googleStep_flag_noRL E site hne
    | rateLimited => exact googleStep_flag_noRL E site hne
    | failed => exact googleStep_flag_noRL E site hne
  · split
    · cases hA : E.githubA <;> rfl
    · split
      · cases hA : E.hfA <;> rfl
      · exact googleStep_flag_noRL E site hne

/-- A successful GitHub adapter call contributes its records verbatim,
regardless of the Google flag. -/
theorem processSite_github_records (E : CrawlEnv) (recs : List Rec)
    (hA : E.githubA = .ok recs) (rl : Bool) :
    (processSite E rl "github.com").1 = recs := by
  unfold processSite
  rw [if_neg (by decide), if_pos rfl, hA]

/-- The arXiv → Google fallback: with the arXiv API rate limited and
Google configured, unflagged and successful, the site contributes Google's
records stamped with the fetch time. -/
theorem processSite_arxiv_fallback (E : CrawlEnv) (recs : List Rec)
    (harx : E.arxivA = .rateLimited) (hg : E.hasGoogle = true)
    (hok : E.googleA "arxiv.org" = .ok recs) :
    (processSite E false "arxiv.org").1 = recs.map (stampFetched E.now) := by
  unfold processSite
  rw [if_pos rfl, harx]
  unfold googleStep
  rw [hg, hok]
  simp

/-- Once the flag is set, the rest of the site pass emits no Google event
and leaves the flag set. -/
theorem sitesLoop_rl_true (E : CrawlEnv) :
    ∀ sites : List String, (sitesLoop E sites true).2.2 = true ∧
      ∀ e ∈ (sitesLoop E sites true).2.1, isGoogleEv e = false
  | [] => ⟨rfl, by simp [sitesLoop]⟩
  | site :: rest => by
    have hp := processSite_rl_true E site
    have ih := sitesLoop_rl_true E rest
    simp only [sitesLoop]
    rw [hp.1]
    refine ⟨ih.1, ?_⟩
    intro e he
    rcases List.mem_append.1 he with h1 | h2
    · exact hp.2 e h1
    · exact ih.2 e h2

/-- The site-pass trace never calls Google after a Google rate limit. -/
theorem sitesLoop_pairwise (E : CrawlEnv) :
    ∀ (sites : List String) (rl : Bool), ((sitesLoop E sites rl).2.1).Pairwise RelEv
  | [], _ => by simp [sitesLoop]
  | site :: rest, rl => by
    simp only [sitesLoop]
    rw [List.pairwise_append]
    refine ⟨processSite_pairwise E rl site, sitesLoop_pairwise E rest _, ?_⟩
    intro a ha b hb hrl
    have hflag := processSite_flag_of_rl_event E rl site a ha hrl
    rw [hflag] at hb
    exact (sitesLoop_rl_true E rest).2 b hb

/-- A Google rate-limit event anywhere in the site pass leaves the final
flag set. -/
theorem sitesLoop_flag_of_rl_event (E : CrawlEnv) :
    ∀ (sites : List String) (rl : Bool) (e : TraceEv),
      e ∈ (sitesLoop E sites rl).2.1 → isGoogleRL e = true →
      (sitesLoop E sites rl).2.2 = true
  | [], _, e => by simp [sitesLoop]
  | site :: rest, rl, e => by
    simp only [sitesLoop]
    intro he hrl
    rcases List.mem_append.1 he with h1 | h2
    · rw [processSite_flag_of_rl_event E rl site e h1 hrl]
      exact (sitesLoop_rl_true E rest).1
    · exact sitesLoop_flag_of_rl_event E rest _ e h2 hrl

/-- If Google never rate-limits, the flag stays down for the whole site
pass. -/
theorem sitesLoop_flag_noRL (E : CrawlEnv) (hno : ∀ s, E.googleA s ≠ .rateLimited) :
    ∀ sites : List String, (sitesLoop E sites false).2.2 = false
  | [] => rfl
  | site :: rest => by
    simp only [sitesLoop]
    rw [processSite_flag_noRL E site (hno site)]
    exact sitesLoop_flag_noRL E hno rest

/-- GitHub's records reach the site-pass output whatever the Google flag
does. -/
theorem sitesLoop_github_records (E : CrawlEnv) (recs : List Rec)
    (hA : E.githubA = .ok recs) :
    ∀ (sites : List String) (rl : Bool), "github.com" ∈ sites →
      ∀ r ∈ recs, r ∈ (sitesLoop E sites rl).1
  | [], _ => by intro h; cases h
  | site :: rest, rl => by
    intro hmem r hr
    simp only [sitesLoop]
    rcases List.mem_cons.1 hmem with heq | hmem2
    · apply List.mem_append_left
      rw [← heq, processSite_github_records E recs hA rl]
      exact hr
    · exact List.mem_append_right _ (sitesLoop_github_records E recs hA rest _ hmem2 r hr)

/-- The stamped Google-fallback records for arxiv.org reach the site-pass
output when Google never rate-limits. -/
theorem sitesLoop_arxiv_records (E : CrawlEnv) (recs : List Rec)
    (hno : ∀ s, E.googleA s ≠ .rateLimited) (harx : E.arxivA = .rateLimited)
    (hg : E.hasGoogle = true) (hok : E.googleA "arxiv.org" = .ok recs) :
    ∀ sites : List String, "arxiv.org" ∈ sites →
      ∀ r ∈ recs, stampFetched E.now r ∈ (sitesLoop E sites false).1
  | [] => by intro h; cases h
  | site :: rest => by
    intro hmem r hr
    simp only [sitesLoop]
    rcases List.mem_cons.1 hmem with heq | hmem2
    · apply List.mem_append_left
      rw [← heq, processSite_arxiv_fallback E recs harx hg hok]
      exact List.mem_map_of_mem _ hr
    · apply List.mem_append_right
      rw [processSite_flag_noRL E site (hno site)]
      exact sitesLoop_arxiv_records E recs hno harx hg hok rest hmem2 r hr

/-- Once rate limited, the organization pass is a silent no-op. -/
theorem orgsLoop_rl_true (E : CrawlEnv) :
    ∀ orgs : List String, orgsLoop E orgs true = ([], [], true)
  | [] => rfl
  | org :: rest => by
    simp only [orgsLoop, if_pos]
    exact orgsLoop_rl_true E rest

/-- The organization-pass trace never calls Google after a rate limit. -/
theorem orgsLoop_pairwise (E : CrawlEnv) :
    ∀ (orgs : List String) (rl : Bool), ((orgsLoop E orgs rl).2.1).Pairwise RelEv
  | [], _ => by simp [orgsLoop]
  | org :: rest, true => by
    simp only [orgsLoop, if_pos]
    exact orgsLoop_pairwise E rest true
  | org :: rest, false => by
    simp only [orgsLoop, Bool.false_eq_true, if_false]
    cases hO : E.googleOrgA org with
    | ok recs =>
      refine List.pairwise_cons.2 ⟨?_, orgsLoop_pairwise E rest false⟩
      intro b _ hrl
      simp [isGoogleRL] at hrl
    | rateLimited =>
      rw [orgsLoop_rl_true E rest]
      exact List.pairwise_singleton _ _
    | failed =>
      refine List.pairwise_cons.2 ⟨?_, orgsLoop_pairwise E rest false⟩
      intro b _ hrl
      simp [isGoogleRL] at hrl

/-- C2 — Run-scoped rate-limit flag: over the full run (site pass and
organization pass) no Google call follows a Google rate limit, and the run
still returns the records collected from the GitHub source regardless of
Google's behaviour. -/
theorem c2_rate_limit_flag_is_run_scoped :
    (∀ (E : CrawlEnv) (sites orgs : List String),
      ((search_all_sites E sites orgs).2).Pairwise RelEv) ∧
    (∀ (E : CrawlEnv) (sites orgs : List String) (recs : List Rec),
      E.githubA = .ok recs → "github.com" ∈ sites →
      ∀ r ∈ recs, r ∈ (search_all_sites E sites orgs).1) := by
  constructor
  · intro E sites orgs
    unfold search_all_sites
    dsimp only
    split
    case isTrue h =>
      rw [List.pairwise_append]
      refine ⟨sitesLoop_pairwise E sites false, orgsLoop_pairwise E orgs false, ?_⟩
      intro a ha b hb hrl
      rw [sitesLoop_flag_of_rl_event E sites false a ha hrl] at h
      simp at h
    case isFalse h =>
      exact sitesLoop_pairwise E sites false
  · intro E sites orgs recs hA hmem r hr
    unfold search_all_sites
    dsimp only
    split
    · exact List.mem_append_left _ (sitesLoop_github_records E recs hA sites false hmem r hr)
    · exact sitesLoop_github_records E recs hA sites false hmem r hr

/-- C2 witness: a concrete run in which Google rate-limits at the first
site still returns GitHub's record, with a well-ordered trace. -/
theorem c2_witness :
    ((search_all_sites cexEnvRL ["zhihu.com", "github.com"] ["OrgA", "OrgB"]).2).Pairwise RelEv ∧
    cexGithubRec ∈ (search_all_sites cexEnvRL ["zhihu.com", "github.com"] ["OrgA", "OrgB"]).1 :=
  ⟨c2_rate_limit_flag_is_run_scoped.1 cexEnvRL ["zhihu.com", "github.com"] ["OrgA", "OrgB"],
   c2_rate_limit_flag_is_run_scoped.2 cexEnvRL ["zhihu.com", "github.com"] ["OrgA", "OrgB"]
     [cexGithubRec] rfl (by decide) cexGithubRec (by decide)⟩

/-- C5 — Fallback demotion: for the one source configured with a priority
chain (arxiv.org: the arXiv API first, then the general web-search
adapter), a RateLimited primary together with a successful secondary
yields the secondary's records, stamped by the orchestrator, in the run's
output; search_all_sites itself returns normally, raising nothing to the
caller. -/
theorem c5_fallback_demotion (E : CrawlEnv) (sites orgs : List String) (recs : List Rec)
    (harx : E.arxivA = .rateLimited) (hok : E.googleA "arxiv.org" = .ok recs)
    (hno : ∀ s, E.googleA s ≠ .rateLimited) (hg : E.hasGoogle = true)
    (hmem : "arxiv.org" ∈ sites) :
    ∀ r ∈ recs, stampFetched E.now r ∈ (search_all_sites E sites orgs).1 := by
  intro r hr
  unfold search_all_sites
  dsimp only
  split
  · exact List.mem_append_left _
      (sitesLoop_arxiv_records E recs hno harx hg hok sites hmem r hr)
  · exact sitesLoop_arxiv_records E recs hno harx hg hok sites hmem r hr

/-- C5 witness: a concrete rate-limited arXiv API demotes to Google and
the Google record is in the output. -/
theorem c5_witness :
    stampFetched cexEnvFallback.now cexGoogleArxRec ∈
      (search_all_sites cexEnvFallback ["arxiv.org"] []).1 :=
  c5_fallback_demotion cexEnvFallback ["arxiv.org"] [] [cexGoogleArxRec] rfl rfl
    (fun _ h => AdapterOut.noConfusion h) rfl (by decide) cexGoogleArxRec (by decide)

/-! ### Pagination lemmas (C7) -/

/-- Length of the inner append loop: it adds the page's items one by one
and stops exactly when the cap is reached. -/
theorem appendGoogleItems_length (site : String) (maxR : Nat) :
    ∀ (items : List GItem) (acc : List Rec), acc.length < maxR →
      (appendGoogleItems site maxR items acc).length = min (acc.length + items.length) maxR
  | [], acc, h => by
    rw [appendGoogleItems]
    simp only [List.length_nil]
    omega
  | it :: rest, acc, h => by
    rw [appendGoogleItems]
    by_cases h2 : maxR ≤ (acc ++ [gItemToRec site acc.length it]).length
    · rw [if_pos h2]
      rw [List.length_append] at h2 ⊢
      simp only [List.length_cons, List.length_nil] at h2 ⊢
      omega
    · rw [if_neg h2]
      rw [List.length_append] at h2
      simp only [List.length_cons, List.length_nil] at h2
      rw [appendGoogleItems_length site maxR rest _ (by
        rw [List.length_append]
        simp only [List.length_cons, List.length_nil]
        omega)]
      rw [List.length_append]
      simp only [List.length_cons, List.length_nil]
      omega

/-- The page loop of google_site_search against a well-behaved paged
provider: starting a page-aligned accumulator, it ends with exactly
`min (10·(page+n)) maxR ⊓ |master|` records (never an error). -/
theorem googleLoop_paged (master : List GItem) (site : String) (maxR : Nat) :
    ∀ (n page : Nat) (acc : List Rec),
      acc.length = min (min (10 * page) maxR) master.length →
      ∃ l, googleLoop (pagedFetch master) site maxR page n acc = .ok l ∧
        l.length = min (min (10 * page + 10 * n) maxR) master.length
  | 0, page, acc, h => ⟨acc, rfl, by omega⟩
  | n + 1, page, acc, h => by
    rw [googleLoop]
    have hfetch : pagedFetch master (page * 10 + 1) (min 10 (maxR - acc.length)) =
        .ok ((master.drop (page * 10)).take (min 10 (maxR - acc.length))) := by
      unfold pagedFetch
      norm_num
    rw [hfetch]
    dsimp only
    have hslen : ((master.drop (page * 10)).take (min 10 (maxR - acc.length))).length =
        min (min 10 (maxR - acc.length)) (master.length - page * 10) := by
      rw [List.length_take, List.length_drop]
    by_cases hemp :
        ((master.drop (page * 10)).take (min 10 (maxR - acc.length))).isEmpty = true
    · rw [if_pos hemp]
      refine ⟨acc, rfl, ?_⟩
      have h0 : min (min 10 (maxR - acc.length)) (master.length - page * 10) = 0 := by
        rw [← hslen]
        exact List.length_eq_zero.2 (List.isEmpty_iff.1 hemp)
      omega
    · rw [if_neg hemp]
      have hpos : 0 < min (min 10 (maxR - acc.length)) (master.length - page * 10) := by
        rw [← hslen]
        rcases Nat.eq_zero_or_pos
          ((master.drop (page * 10)).take (min 10 (maxR - acc.length))).length with h0 | h0
        · exact absurd (List.isEmpty_iff.2 (List.length_eq_zero.1 h0)) (by
            intro hcon
            exact hemp hcon)
        · exact h0
      have hlt : acc.length < maxR := by omega
      have hlen2 := appendGoogleItems_length site maxR
        ((master.drop (page * 10)).take (min 10 (maxR - acc.length))) acc hlt
      rw [hslen] at hlen2
      by_cases hfew : ((master.drop (page * 10)).take (min 10 (maxR - acc.length))).length <
          min 10 (maxR - acc.length)
      · rw [if_pos hfew]
        rw [hslen] at hfew
        refine ⟨_, rfl, ?_⟩
        rw [hlen2]
        omega
      · rw [if_neg hfew]
        rw [hslen] at hfew
        have hinv : (appendGoogleItems site maxR
            ((master.drop (page * 10)).take (min 10 (maxR - acc.length))) acc).length =
            min (min (10 * (page + 1)) maxR) master.length := by
          rw [hlen2]
          omega
        obtain ⟨l, hl, hlen⟩ := googleLoop_paged master site maxR n (page + 1) _ hinv
        refine ⟨l, hl, ?_⟩
        rw [hlen]
        omega

/-- C7 (amended) — Pagination completeness up to the request cap:
google_site_search pages in pages of at most 10 and, against a provider
holding `master`, returns exactly `min (min max_results 30) |master|`
records — the request is silently clamped to 30, so a request above 30
yields 30 records even when more are available. -/
theorem c7_pagination_reaches_cap (site : String) (maxResults : Nat) (master : List GItem) :
    resLength (google_site_search true site maxResults (pagedFetch master)) =
      some (min (min maxResults 30) master.length) := by
  unfold google_site_search
  rw [if_neg (by decide)]
  dsimp only
  obtain ⟨l, hl, hlen⟩ := googleLoop_paged master site (min maxResults 30)
    ((min maxResults 30 + 9) / 10) 0 [] (by simp)
  rw [hl]
  show some l.length = some (min (min maxResults 30) master.length)
  have hfin : l.length = min (min maxResults 30) master.length := by
    rw [hlen]
    omega
  rw [hfin]

/-- C7 counterexample (claim as stated): with 31 items available and
max_results = 31 requested, only 30 records come back — the adapter does
not page until max_results is reached, because the request is clamped to
30 first. -/
theorem c7_counterexample :
    resLength (google_site_search true "zhihu.com" 31 (pagedFetch cexMaster31)) = some 30 ∧
    cexMaster31.length = 31 := by
  constructor
  · decide
  · decide

/-! ### Source-id provenance (C6) -/

/-- Every record the inner append loop adds is tagged with the queried
site. -/
theorem appendGoogleItems_site (site : String) (maxR : Nat) :
    ∀ (items : List GItem) (acc : List Rec), (∀ r ∈ acc, r.site = site) →
      ∀ r ∈ appendGoogleItems site maxR items acc, r.site = site
  | [], _, h => h
  | it :: rest, acc, h => by
    rw [appendGoogleItems]
    have hacc2 : ∀ r ∈ acc ++ [gItemToRec site acc.length it], r.site = site := by
      intro r hr
      rcases List.mem_append.1 hr with h1 | h2
      · exact h r h1
      · rcases List.mem_singleton.1 h2 with rfl
        rfl
    by_cases h2 : maxR ≤ (acc ++ [gItemToRec site acc.length it]).length
    · rw [if_pos h2]
      exact hacc2
    · rw [if_neg h2]
      exact appendGoogleItems_site site maxR rest _ hacc2

/-- The page loop preserves the site tag of every record it returns. -/
theorem googleLoop_site (fetch : GoogleFetch) (site : String) (maxR : Nat) :
    ∀ (n page : Nat) (acc l : List Rec), (∀ r ∈ acc, r.site = site) →
      googleLoop fetch site maxR page n acc = .ok l → ∀ r ∈ l, r.site = site
  | 0, _, acc, l, hacc, heq => by cases heq; exact hacc
  | n + 1, page, acc, l, hacc, heq => by
    rw [googleLoop] at heq
    cases hf : fetch (page * 10 + 1) (min 10 (maxR - acc.length)) with
    | http429 => rw [hf] at heq; cases heq
    | httpErr => rw [hf] at heq; cases heq
    | ok items =>
      rw [hf] at heq
      dsimp only at heq
      by_cases hemp : items.isEmpty = true
      · rw [if_pos hemp] at heq
        cases heq
        exact hacc
      · rw [if_neg hemp] at heq
        by_cases hfew : items.length < min 10 (maxR - acc.length)
        · rw [if_pos hfew] at heq
          cases heq
          exact appendGoogleItems_site site maxR items acc hacc
        · rw [if_neg hfew] at heq
          exact googleLoop_site fetch site maxR n (page + 1) _ l
            (appendGoogleItems_site site maxR items acc hacc) heq

/-- Every record google_site_search returns carries the queried site as
its source identifier. -/
theorem google_site_search_site (hk : Bool) (site : String) (maxR : Nat)
    (fetch : GoogleFetch) (l : List Rec)
    (h : google_site_search hk site maxR fetch = .ok l) :
    ∀ r ∈ l, r.site = site := by
  unfold google_site_search at h
  by_cases hkk : (!hk) = true
  · rw [if_pos hkk] at h
    cases h
  · rw [if_neg hkk] at h
    exact googleLoop_site fetch site _ _ 0 [] l (fun r hr => absurd hr (List.not_mem_nil r)) h

/-- The Google branch only emits records for the queried site, given the
provider tags its records that way. -/
theorem googleStep_site (E : CrawlEnv) (rl : Bool) (site : String)
    (hGoog : ∀ recs r, E.googleA site = .ok recs → r ∈ recs → r.site = site) :
    ∀ r ∈ (googleStep E rl site).1, r.site = site := by
  unfold googleStep
  split
  · cases hg : E.googleA site with
    | ok recs =>
      intro r hr
      rcases List.mem_map.1 hr with ⟨r0, hr0, rfl⟩
      show r0.site = site
      exact hGoog recs r0 hg hr0
    | rateLimited => simp
    | failed => simp
  · simp

/-- Growing the configured site list preserves allowance. -/
theorem allowedSite_mono (x : String) (sites : List String) (s : String)
    (h : allowedSite sites s) : allowedSite (x :: sites) s := by
  unfold allowedSite at *
  rcases h with h1 | h2
  · exact Or.inl (List.mem_cons_of_mem _ h1)
  · exact Or.inr h2

/-- Every record a single site contributes carries either that site's id
or one of the special adapters' ids. -/
theorem processSite_sites_allowed (E : CrawlEnv) (rl : Bool) (site : String)
    (hA : ∀ recs r, E.arxivA = .ok recs → r ∈ recs → r.site = "arxiv.org")
    (hG : ∀ recs r, E.githubA = .ok recs → r ∈ recs → r.site = "github.com")
    (hH : ∀ recs r, E.hfA = .ok recs → r ∈ recs → r.site = "huggingface.co")
    (hGoog : ∀ recs r, E.googleA site = .ok recs → r ∈ recs → r.site = site) :
    ∀ r ∈ (processSite E rl site).1, r.site = site ∨ r.site = "arxiv.org" ∨
      r.site = "github.com" ∨ r.site = "huggingface.co" := by
  unfold processSite
  split
  · cases harx : E.arxivA with
    | ok recs =>
      cases hre : recs.isEmpty
      · simp only [hre, Bool.false_eq_true, if_false]
        intro r hr
        exact Or.inr (Or.inl (hA recs r harx hr))
      · simp only [hre, if_true]
        intro r hr
        exact Or.inl (googleStep_site E rl site hGoog r hr)
    | rateLimited =>
      intro r hr
      exact Or.inl (googleStep_site E rl site hGoog r hr)
    | failed =>
      intro r hr
      exact Or.inl (googleStep_site E rl site hGoog r hr)
  · split
    · cases hgh : E.githubA with
      | ok recs =>
        intro r hr
        exact Or.inr (Or.inr (Or.inl (hG recs r hgh hr)))
      | rateLimited => simp
      | failed => simp
    · split
      · cases hhf : E.hfA with
        | ok recs =>
          intro r hr
          have hr2 : r ∈ recs :=
            List.mem_of_mem_filter ((List.take_sublist _ _).subset hr)
          exact Or.inr (Or.inr (Or.inr (hH recs r hhf hr2)))
        | rateLimited => simp
        | failed => simp
      · intro r hr
        exact Or.inl (googleStep_site E rl site hGoog r hr)

/-- Every record of the site pass carries an allowed source id. -/
theorem sitesLoop_sites_allowed (E : CrawlEnv)
    (hA : ∀ recs r, E.arxivA = .ok recs → r ∈ recs → r.site = "arxiv.org")
    (hG : ∀ recs r, E.githubA = .ok recs → r ∈ recs → r.site = "github.com")
    (hH : ∀ recs r, E.hfA = .ok recs → r ∈ recs → r.site = "huggingface.co")
    (hGoog : ∀ s recs r, E.googleA s = .ok recs → r ∈ recs → r.site = s) :
    ∀ (sites : List String) (rl : Bool), ∀ r ∈ (sitesLoop E sites rl).1,
      allowedSite sites r.site
  | [], _ => by simp [sitesLoop]
  | site :: rest, rl => by
    intro r hr
    simp only [sitesLoop] at hr
    rcases List.mem_append.1 hr with h1 | h2
    · rcases processSite_sites_allowed E rl site hA hG hH (hGoog site) r h1 with
        heq | heq | heq | heq
      · exact Or.inl (by rw [heq]; exact List.mem_cons_self _ _)
      · exact Or.inr (Or.inl heq)
      · exact Or.inr (Or.inr (Or.inl heq))
      · exact Or.inr (Or.inr (Or.inr (Or.inl heq)))
    · exact allowedSite_mono site rest r.site
        (sitesLoop_sites_allowed E hA hG hH hGoog rest _ r h2)

/-- Every record of the organization pass is tagged with the organization
pseudo-source. -/
theorem orgsLoop_sites_org (E : CrawlEnv) :
    ∀ (orgs : List String) (rl : Bool), ∀ r ∈ (orgsLoop E orgs rl).1,
      r.site = "organizations"
  | [], _ => by simp [orgsLoop]
  | org :: rest, rl => by
    intro r hr
    rw [orgsLoop] at hr
    by_cases hrl : rl = true
    · rw [if_pos hrl] at hr
      exact orgsLoop_sites_org E rest rl r hr
    · rw [if_neg hrl] at hr
      cases hO : E.googleOrgA org with
      | ok recs =>
        rw [hO] at hr
        dsimp only at hr
        rcases List.mem_append.1 hr with h1 | h2
        · rcases List.mem_map.1 h1 with ⟨r0, _, rfl⟩
          rfl
        · exact orgsLoop_sites_org E rest rl r h2
      | rateLimited =>
        rw [hO] at hr
        exact orgsLoop_sites_org E rest true r hr
      | failed =>
        rw [hO] at hr
        exact orgsLoop_sites_org E rest rl r hr

/-- Every record a whole run collects carries an allowed source id. -/
theorem search_all_sites_sites_allowed (E : CrawlEnv) (sites orgs : List String)
    (hA : ∀ recs r, E.arxivA = .ok recs → r ∈ recs → r.site = "arxiv.org")
    (hG : ∀ recs r, E.githubA = .ok recs → r ∈ recs → r.site = "github.com")
    (hH : ∀ recs r, E.hfA = .ok recs → r ∈ recs → r.site = "huggingface.co")
    (hGoog : ∀ s recs r, E.googleA s = .ok recs → r ∈ recs → r.site = s) :
    ∀ r ∈ (search_all_sites E sites orgs).1, allowedSite sites r.site := by
  intro r hr
  unfold search_all_sites at hr
  dsimp only at hr
  split at hr
  · rcases List.mem_append.1 hr with h1 | h2
    · exact sitesLoop_sites_allowed E hA hG hH hGoog sites false r h1
    · unfold search_organizations at h2
      unfold allowedSite
      exact Or.inr (Or.inr (Or.inr (Or.inr (orgsLoop_sites_org E orgs false r h2))))
  · exact sitesLoop_sites_allowed E hA hG hH hGoog sites false r hr

/-- Any per-group property holds of every looked-up group member. -/
theorem getGroup_prop {P : Rec → Prop} (g : List (String × List Rec))
    (h : ∀ p ∈ g, ∀ x ∈ p.2, P x) (s : String) : ∀ x ∈ getGroup g s, P x := by
  intro x hx
  unfold getGroup at hx
  cases hl : g.lookup s with
  | none => rw [hl] at hx; cases hx
  | some l =>
    rw [hl] at hx
    exact h (s, l) (lookup_mem s l g hl) x hx

/-- Records merged by the organization fold keep the site of a record of
the partitioned input. -/
theorem orgFold_source (og : List (String × List Rec)) (items : List Rec)
    (hog : OrgGroupsSound items og) :
    ∀ (orgs : List String) (acc : List Rec × List (String × Nat)),
      (∀ x ∈ acc.1, ∃ r0 ∈ items, x.site = r0.site) →
      ∀ x ∈ (orgs.foldl (orgAccum og) acc).1, ∃ r0 ∈ items, x.site = r0.site
  | [], _, hacc => hacc
  | org :: rest, acc, hacc => by
    rw [List.foldl_cons]
    refine orgFold_source og items hog rest _ ?_
    intro x hx
    unfold orgAccum at hx
    dsimp only at hx
    rcases List.mem_append.1 hx with h1 | h2
    · exact hacc x h1
    · rcases List.mem_map.1 h2 with ⟨y, hy, rfl⟩
      have hyg : y ∈ getGroup og org :=
        (sortIfRanked_perm _).mem_iff.1 ((List.take_sublist _ _).subset hy)
      have := getGroup_prop og (fun p hp x hxp => (hog p hp x hxp).2) org y hyg
      exact ⟨y, this, rfl⟩

/-- Every item of every block of an aggregated summary carries the site of
some input record. -/
theorem summary_items_source (metaO : MetaOracle) (transO : TransOracle)
    (allOrgs : List String) (now : String) (items : List Rec) :
    ∀ b ∈ (simple_group_and_summarize metaO transO allOrgs now items).sites,
      ∀ r ∈ b.items, ∃ r0 ∈ items, r.site = r0.site := by
  intro b hb r hr
  rcases sites_mem_cases metaO transO allOrgs now items b hb with ⟨s, _, rfl⟩ | rfl | hoth
  · rw [mkTargetBlock_items] at hr
    have hbase : ∀ x ∈ (sortIfRanked (getGroup (partitionGroups items).1 s)).take 30,
        x ∈ items := by
      intro x hx
      exact (getGroup_sound items s x
        ((sortIfRanked_perm _).mem_iff.1 ((List.take_sublist _ _).subset hx))).2
    split at hr
    · rcases List.mem_filterMap.1 hr with ⟨a, ha, hea⟩
      exact ⟨a, hbase a ha, (enrichOne_fields metaO transO hea).2.2⟩
    · exact ⟨r, hbase r hr, rfl⟩
  · have hr2 : r ∈ (allOrgs.foldl (orgAccum (partitionGroups items).2) ([], [])).1 :=
      (sortIfRanked_perm _).mem_iff.1 ((List.take_sublist _ _).subset hr)
    exact orgFold_source (partitionGroups items).2 items (partitionGroups_sound items).2
      allOrgs ([], []) (fun x hx => absurd hx (List.not_mem_nil x)) r hr2
  · unfold mkOtherBlocks at hoth
    rcases List.mem_map.1 hoth with ⟨p, hp, rfl⟩
    have hpg : p ∈ (partitionGroups items).1 := (List.mem_filter.1 hp).1
    have hr2 : r ∈ p.2 :=
      (sortIfRanked_perm _).mem_iff.1 ((List.take_sublist _ _).subset hr)
    exact ⟨r, ((partitionGroups_sound items).1 p hpg r hr2).2, rfl⟩

/-- An entry of the store after an overwrite is an old entry or the new
document. -/
theorem storePut_mem (v : WeeklySummary) (k0 : Int) :
    ∀ (ws : List (Int × WeeklySummary)) (k : Int) (s : WeeklySummary),
      (k, s) ∈ storePut ws k0 v → (k, s) ∈ ws ∨ s = v
  | [], k, s => by
    intro h
    rw [storePut] at h
    rcases List.mem_singleton.1 h with heq
    exact Or.inr (congrArg Prod.snd heq)
  | (k1, v1) :: rest, k, s => by
    intro h
    rw [storePut] at h
    by_cases hk : k1 = k0
    · rw [if_pos hk] at h
      rcases List.mem_cons.1 h with heq | h2
      · exact Or.inr (congrArg Prod.snd heq)
      · exact Or.inl (List.mem_cons_of_mem _ h2)
    · rw [if_neg hk] at h
      rcases List.mem_cons.1 h with heq | h2
      · exact Or.inl (heq ▸ List.mem_cons_self _ _)
      · rcases storePut_mem v k0 rest k s h2 with h3 | h3
        · exact Or.inl (List.mem_cons_of_mem _ h3)
        · exact Or.inr h3

/-- C6 counterexample (claim as stated): a provider item with no "link"
key flows through google_site_search, search_all_sites and run_once into
the persisted weekly document as a record whose url is absent — so not
every persisted record has a non-empty url. -/
theorem c6_counterexample :
    ∃ p ∈ (run_once [] [] 8 (search_all_sites cexEnvNoLink ["zhihu.com"] []).1
        noMetaOracle noTransOracle [] "g").1,
      ∃ b ∈ p.2.sites, ∃ r ∈ b.items, r.url = none := by
  decide

/-- C6 (amended) — Persisted record source ids: provided each special
adapter tags its records with its own host (which github_search,
huggingface_search and arxiv_search do by construction) and the Google
adapter tags records with the queried site (proved above of the modelled
google_site_search), every record of every weekly document run_once
persists — beyond those already in the store — carries a source id that is
a queried target site, a special adapter host, or "organizations".  The
non-empty-url half of the original claim is refuted by the
counterexample. -/
theorem c6_persisted_source_ids (E : CrawlEnv) (sites orgs : List String)
    (hA : ∀ recs r, E.arxivA = .ok recs → r ∈ recs → r.site = "arxiv.org")
    (hG : ∀ recs r, E.githubA = .ok recs → r ∈ recs → r.site = "github.com")
    (hH : ∀ recs r, E.hfA = .ok recs → r ∈ recs → r.site = "huggingface.co")
    (hGoog : ∀ s recs r, E.googleA s = .ok recs → r ∈ recs → r.site = s)
    (weekStore dayStore : List (Int × WeeklySummary)) (today : Int)
    (metaO : MetaOracle) (transO : TransOracle) (allOrgs : List String) (now : String)
    (k : Int) (s : WeeklySummary)
    (hmem : (k, s) ∈ (run_once weekStore dayStore today
      (search_all_sites E sites orgs).1 metaO transO allOrgs now).1) :
    (k, s) ∈ weekStore ∨ ∀ b ∈ s.sites, ∀ r ∈ b.items, allowedSite sites r.site := by
  unfold run_once at hmem
  dsimp only at hmem
  simp only [ite_self] at hmem
  by_cases hskip : shouldSkip (List.lookup (get_week_start today - 7) weekStore) = true
  · rw [if_pos hskip] at hmem
    exact Or.inl hmem
  · rw [if_neg hskip] at hmem
    by_cases hempty : (search_all_sites E sites orgs).1.isEmpty = true
    · rw [if_pos hempty] at hmem
      exact Or.inl hmem
    · rw [if_neg hempty] at hmem
      rcases storePut_mem _ _ weekStore k s hmem with h1 | heq
      · exact Or.inl h1
      · right
        rw [heq]
        intro b hb r hr
        obtain ⟨r0, hr0, hsite⟩ := summary_items_source metaO transO allOrgs now _ b hb r hr
        rw [hsite]
        exact search_all_sites_sites_allowed E sites orgs hA hG hH hGoog r0 hr0

/-- C6 witness: the amended statement instantiated on a concrete run that
persists GitHub's record for week 0. -/
theorem c6_witness :
    (0, witC6Summary) ∈ ([] : List (Int × WeeklySummary)) ∨
      ∀ b ∈ witC6Summary.sites, ∀ r ∈ b.items,
        allowedSite ["zhihu.com", "github.com"] r.site :=
  c6_persisted_source_ids cexEnvRL ["zhihu.com", "github.com"] []
    (fun _ _ h => AdapterOut.noConfusion h)
    (by
      intro recs r h hr
      cases h
      rcases List.mem_singleton.1 hr with rfl
      rfl)
    (fun _ _ h => AdapterOut.noConfusion h)
    (fun _ _ _ h => AdapterOut.noConfusion h)
    [] [] 8 noMetaOracle noTransOracle [] "g" 0 witC6Summary (by decide)

end VlaTracker
